import Mathlib

/-!
Verification of the codefang C core (`src/pkg/gitlib/clib`): a shallow
embedding of the batch blob loader, the batch diff engine and the utility
functions, with theorems settling the frozen claims about them.

Modelling conventions:
* A byte buffer is a `List Nat` of byte values (only the values `0` and
  `10 = '\n'` ever matter to the code under verification).
* An object identifier (`git_oid`, 20 raw bytes compared with `memcmp`) is
  modelled as a `Nat`: byte-wise lexicographic comparison of equal-width
  binary identifiers coincides with numeric comparison of their big-endian
  values, so the ordering used by every sort/dedup step is preserved.
* The object database (`git_odb`) is a function from identifiers to an
  optional stored object; `git_odb_read` succeeding is modelled by the
  function returning `some`.
* `malloc`/`calloc` are modelled as always succeeding: the out-of-memory
  branches of the C code abort the call and are outside every claim except
  as the trigger of fallback paths, which are modelled separately.
* `qsort` (an unspecified comparison sort) is modelled by
  `List.insertionSort`, which produces a sorted permutation, the only
  property the code relies on.
* OpenMP parallel loops write exclusively to per-item slots (disjoint
  writes), so their sequential execution order is semantically equal to the
  modelled sequential fold.
-/

namespace Codefang

/-- A byte buffer (`const char* data, size_t size`). -/
abbrev Bytes := List Nat

/-- A 20-byte object identifier, as the big-endian value of its bytes. -/
abbrev Oid := Nat

/-! ### Constants from `codefang_git.h` -/

/-- Maximum operations per diff result (`CF_MAX_DIFF_OPS`). -/
def CF_MAX_DIFF_OPS : Nat := 100000

/-- Number of bytes checked for binary detection (`CF_BINARY_CHECK_LEN`). -/
def CF_BINARY_CHECK_LEN : Nat := 8000

/-- Diff operation type `CF_DIFF_EQUAL`. -/
def CF_DIFF_EQUAL : Int := 0

/-- Diff operation type `CF_DIFF_INSERT`. -/
def CF_DIFF_INSERT : Int := 1

/-- Diff operation type `CF_DIFF_DELETE`. -/
def CF_DIFF_DELETE : Int := 2

/-- Error code `CF_OK`. -/
def CF_OK : Int := 0

/-- Error code `CF_ERR_NOMEM`. -/
def CF_ERR_NOMEM : Int := -1

/-- Error code `CF_ERR_BINARY`. -/
def CF_ERR_BINARY : Int := -2

/-- Error code `CF_ERR_LOOKUP`. -/
def CF_ERR_LOOKUP : Int := -3

/-- Error code `CF_ERR_DIFF`. -/
def CF_ERR_DIFF : Int := -4

/-- Error code `CF_ERR_ARENA_FULL`. -/
def CF_ERR_ARENA_FULL : Int := -5

/-! ### `utils.c`: line counting and binary detection -/

/-- The `memchr`-driven loop of `cf_count_lines`: the number of newline
bytes in the buffer (each found newline advances the cursor past it). -/
def countNewlines : Bytes → Nat
  | [] => 0
  | b :: rest => (if b = 10 then 1 else 0) + countNewlines rest

/-- `cf_count_lines` (`utils.c:114`): count `'\n'` bytes; if the buffer is
non-empty and its last byte is not `'\n'`, the final segment counts as one
more line; the empty buffer has 0 lines. -/
def cf_count_lines (data : Bytes) : Nat :=
  if data.length = 0 then 0
  else
    countNewlines data + (if data.getLast? ≠ some 10 then 1 else 0)

/-- The scanning loop of `cf_is_binary`: does the buffer contain a zero
byte? -/
def containsZero : Bytes → Bool
  | [] => false
  | b :: rest => if b = 0 then true else containsZero rest

/-- `cf_is_binary` (`utils.c:146`): scan the first
`min(size, CF_BINARY_CHECK_LEN)` bytes for a zero byte; return 1 (binary)
if one is found, else 0. The C function returns an `int` used as a truth
value. -/
def cf_is_binary (data : Bytes) : Nat :=
  if (data.take CF_BINARY_CHECK_LEN).length = 0 then 0
  else if containsZero (data.take CF_BINARY_CHECK_LEN) then 1 else 0

/-! ### The object store (`git_odb`) -/

/-- The kind tag of a stored object (`git_odb_object_type`): the code only
distinguishes `GIT_OBJECT_BLOB` from everything else. -/
inductive GitObjectType where
  | blob
  | other
deriving DecidableEq, Repr

/-- A stored object: its kind and its raw bytes. -/
structure GitOdbObject where
  type_ : GitObjectType
  data : Bytes
deriving DecidableEq, Repr

/-- The object database: `git_odb_read` returns the object named by an
identifier, or fails (`none`). Reads are side-effect free and the store is
documented as safe for concurrent reads. -/
def GitOdb := Oid → Option GitOdbObject

/-- The successful-fetch view shared by all loaders: `git_odb_read`
succeeding *and* `git_odb_object_type` being `GIT_OBJECT_BLOB`; any other
outcome is a per-item lookup failure. -/
def fetchBlobObj (odb : GitOdb) (oid : Oid) : Option Bytes :=
  match odb oid with
  | none => none
  | some obj => if obj.type_ = GitObjectType.blob then some obj.data else none

/-! ### `blob_ops.c`: result types and the three loaders -/

/-- `cf_blob_result`: `data = none` models a NULL data pointer (never
allocated for empty or failed blobs). -/
structure cf_blob_result where
  oid : Oid
  data : Option Bytes
  size : Nat
  error : Int
  is_binary : Nat
  line_count : Nat
deriving DecidableEq, Repr

/-- The result initialisation loop of `cf_batch_load_blobs`
(`blob_ops.c:115`). -/
def initBlobResult (oid : Oid) : cf_blob_result :=
  { oid := oid, data := none, size := 0, error := CF_OK, is_binary := 0, line_count := 0 }

/-- `load_single_blob_odb` (`blob_ops.c:35`): fetch one object through the
ODB, require it to be a blob, classify it and copy its bytes. -/
def load_single_blob_odb (odb : GitOdb) (oid : Oid) : cf_blob_result :=
  match fetchBlobObj odb oid with
  | none => { initBlobResult oid with error := CF_ERR_LOOKUP }
  | some content =>
    let size := content.length
    let isb := if size > 0 then cf_is_binary content else 0
    let lc := if isb = 0 ∧ size > 0 then cf_count_lines content else 0
    { oid := oid, data := if size > 0 then some content else none,
      size := size, error := CF_OK, is_binary := isb, line_count := lc }

/-- The identifier sort shared by all batch operations: pair each request
with its original index and sort by identifier (`compare_oids` is a
`memcmp` of the 20 raw bytes; `qsort` is modelled by a sorted
permutation). -/
def sortedWithIndex (reqs : List Oid) : List (Nat × Oid) :=
  List.insertionSort (fun a b => a.2 ≤ b.2) reqs.enum

/-- `cf_batch_load_blobs` (`blob_ops.c:90`): initialise one result per
request (in request order), then — for batches of more than 4 — load in
identifier-sorted order, each load writing exclusively to the slot of its
original index. The OpenMP path writes the same per-slot values as the
sequential one, so both are modelled by the sequential fold. The model
assumes the ODB handle opens (the store is given as a parameter). -/
def cf_batch_load_blobs (odb : GitOdb) (reqs : List Oid) : List cf_blob_result :=
  if reqs.length ≤ 4 then
    reqs.map (load_single_blob_odb odb)
  else
    (sortedWithIndex reqs).foldl
      (fun res p => res.set p.1 (load_single_blob_odb odb p.2))
      (reqs.map initBlobResult)

/-- `cf_blob_arena_result`: an `(offset, size)` view into a shared arena. -/
structure cf_blob_arena_result where
  oid : Oid
  offset : Nat
  size : Nat
  error : Int
  is_binary : Nat
  line_count : Nat
deriving DecidableEq, Repr

/-- The result initialisation loop shared by the arena and flat loaders. -/
def initArenaResult (oid : Oid) : cf_blob_arena_result :=
  { oid := oid, offset := 0, size := 0, error := CF_OK, is_binary := 0, line_count := 0 }

/-- Update the result slot at index `j` in place (a C write through
`results[j]`); out-of-range writes cannot occur in the modelled code and
are mapped to the identity. -/
def updAt (res : List α) (j : Nat) (f : α → α) : List α :=
  match res[j]? with
  | some a => res.set j (f a)
  | none => res

/-- A fold over the sorted work list that optionally updates the result
slot of each item's original index; the shape shared by phases 1 and 4 of
`cf_batch_load_blobs_flat`. -/
def applyUpdates (act : Nat × Option Bytes → Option (α → α))
    (entries : List (Nat × Option Bytes)) (res : List α) : List α :=
  entries.foldl
    (fun r e =>
      match act e with
      | none => r
      | some f => updAt r e.1 f)
    res

/-- Phase 1 of `cf_batch_load_blobs_flat` (`blob_ops.c:280`): each item
whose fetch failed (read error or non-blob) gets `CF_ERR_LOOKUP`. -/
def flatMarkErrors (e : Nat × Option Bytes) :
    Option (cf_blob_arena_result → cf_blob_arena_result) :=
  match e.2 with
  | none => some (fun r => { r with error := CF_ERR_LOOKUP })
  | some _ => none

/-- Phase 2 of `cf_batch_load_blobs_flat` (`blob_ops.c:311`): the
sequential prefix-sum over the sorted order; each successfully fetched
item records its size and the running total as its offset, and advances
the total by its size. -/
def flatPhase2 (entries : List (Nat × Option Bytes))
    (acc : List cf_blob_arena_result × Nat) : List cf_blob_arena_result × Nat :=
  entries.foldl
    (fun st e =>
      match e.2 with
      | none => st
      | some data =>
        (updAt st.1 e.1 (fun r => { r with offset := st.2, size := data.length }),
         st.2 + data.length))
    acc

/-- Phase 4 of `cf_batch_load_blobs_flat` (`blob_ops.c:330`): copy each
successful object's bytes to its offset and classify; the classification
is only performed for objects of nonzero size. -/
def flatClassify (e : Nat × Option Bytes) :
    Option (cf_blob_arena_result → cf_blob_arena_result) :=
  match e.2 with
  | none => none
  | some data =>
    if data.length > 0 then
      some (fun r =>
        { r with
          is_binary := cf_is_binary data,
          line_count := if cf_is_binary data = 0 then cf_count_lines data else r.line_count })
    else none

/-- The sorted per-item work list of `cf_batch_load_blobs_flat`: the
original index of each request paired with the outcome of fetching it
(phase 1's `temps` array, in sorted order). -/
def flatEntries (odb : GitOdb) (reqs : List Oid) : List (Nat × Option Bytes) :=
  (sortedWithIndex reqs).map (fun p => (p.1, fetchBlobObj odb p.2))

/-- The sizes of the successfully fetched items of a work list, in order. -/
def succSizes (entries : List (Nat × Option Bytes)) : List Nat :=
  entries.filterMap (fun e => e.2.map List.length)

/-- The byte size one request contributes to the flat arena: the fetched
object's size on success, zero on a failed fetch. -/
def sizeAt (odb : GitOdb) (oid : Oid) : Nat :=
  match fetchBlobObj odb oid with
  | some d => d.length
  | none => 0

/-- `cf_batch_load_blobs_flat` (`blob_ops.c:245`): two-phase parallel
load-then-pack. Phase 1 fetches every object in sorted order (lookup
failures are per-item); phase 2 sequentially assigns `(offset, size)` by
prefix sum over the successes; phase 3 allocates one arena of exactly the
total size (allocation modelled as succeeding); phase 4 copies and
classifies. Returns the results (in request order) and the arena size. -/
def cf_batch_load_blobs_flat (odb : GitOdb) (reqs : List Oid) :
    List cf_blob_arena_result × Nat :=
  let entries := flatEntries odb reqs
  let results1 := applyUpdates flatMarkErrors entries (reqs.map initArenaResult)
  let st2 := flatPhase2 entries (results1, 0)
  let results4 := applyUpdates flatClassify entries st2.1
  (results4, st2.2)

/-- The state threaded through the sequential loop of
`cf_batch_load_blobs_arena`: the result slots, the running arena offset,
and the log of `memcpy`s into the caller's arena (offset paired with the
bytes written). -/
structure ArenaState where
  results : List cf_blob_arena_result
  global_offset : Nat
  writes : List (Nat × Bytes)
deriving DecidableEq, Repr

/-- One iteration of the loop of `cf_batch_load_blobs_arena`
(`blob_ops.c:218`): fetch the item's object; on lookup failure mark
`CF_ERR_LOOKUP`; if the object fits at the running offset, copy it, record
`(offset, size)`, classify (note: the classification of this variant marks
any object that is empty *or* binary as binary), and advance the offset;
otherwise mark `CF_ERR_ARENA_FULL` and leave the offset unchanged. -/
def arenaStep (odb : GitOdb) (capacity : Nat) (st : ArenaState) (p : Nat × Oid) :
    ArenaState :=
  match fetchBlobObj odb p.2 with
  | none =>
    { st with results := updAt st.results p.1 (fun r => { r with error := CF_ERR_LOOKUP }) }
  | some data =>
    if st.global_offset + data.length ≤ capacity then
      { results := updAt st.results p.1 (fun r =>
          let r1 := { r with offset := st.global_offset, size := data.length }
          if data.length > 0 ∧ cf_is_binary data = 0 then
            { r1 with line_count := cf_count_lines data }
          else
            { r1 with is_binary := 1 }),
        global_offset := st.global_offset + data.length,
        writes := st.writes ++ [(st.global_offset, data)] }
    else
      { st with results := updAt st.results p.1 (fun r => { r with error := CF_ERR_ARENA_FULL }) }

/-- `cf_batch_load_blobs_arena` (`blob_ops.c:190`): sequential
fixed-capacity arena variant, iterating the requests in identifier-sorted
order. -/
def cf_batch_load_blobs_arena (odb : GitOdb) (reqs : List Oid) (capacity : Nat) :
    ArenaState :=
  (sortedWithIndex reqs).foldl (arenaStep odb capacity)
    { results := reqs.map initArenaResult, global_offset := 0, writes := [] }

/-! ### `utils.c`: release functions -/

/-- `cf_free_blob_results` (`utils.c:169`): free every non-NULL `data`
pointer and set it to NULL. The second component counts the `free` calls
performed. -/
def cf_free_blob_results (results : List cf_blob_result) :
    List cf_blob_result × Nat :=
  (results.map (fun r => if r.data.isSome then { r with data := none } else r),
   (results.filter (fun r => r.data.isSome)).length)

/-! ### `diff_ops.c`: the line-diff run encoder -/

/-- `cf_diff_op`: one maximal run of same-kind lines. -/
structure cf_diff_op where
  type_ : Int
  line_count : Nat
deriving DecidableEq, Repr

/-- `cf_diff_result`: `ops = none` models a NULL ops pointer (only the
release function ever produces it; `cf_init_diff_result` always allocates
in the ideal-allocator model, so the engine returns `some`). `op_count`
is the length of the list and `op_capacity` is `CF_MAX_DIFF_OPS`. -/
structure cf_diff_result where
  old_lines : Nat
  new_lines : Nat
  ops : Option (List cf_diff_op)
  error : Int
deriving DecidableEq, Repr

/-- `cf_free_diff_results` (`utils.c:181`): free every non-NULL `ops`
pointer and set it to NULL; the second component counts the `free` calls. -/
def cf_free_diff_results (results : List cf_diff_result) :
    List cf_diff_result × Nat :=
  (results.map (fun r => if r.ops.isSome then { r with ops := none } else r),
   (results.filter (fun r => r.ops.isSome)).length)

/-- `diff_ctx_t` (`diff_ops.c:15`): the callback context. `ops` is the
prefix of the result's ops array written so far (`op_count` entries);
`op_capacity` is its capacity. -/
structure diff_ctx_t where
  ops : List cf_diff_op
  op_capacity : Nat
  current_type : Int
  current_count : Nat
  old_line_pos : Nat
  new_line_pos : Nat
deriving DecidableEq, Repr

/-- The bounded append inside `flush_op`: the op is recorded only while
`op_count < op_capacity`; past capacity it is silently dropped. -/
def pushCap (ops : List cf_diff_op) (cap : Nat) (x : cf_diff_op) : List cf_diff_op :=
  if ops.length < cap then ops ++ [x] else ops

/-- `flush_op` (`diff_ops.c:24`): record the pending run (if any) and clear
the pending count. -/
def flush_op (ctx : diff_ctx_t) : diff_ctx_t :=
  if ctx.current_count > 0 then
    { ctx with
      ops := pushCap ctx.ops ctx.op_capacity ⟨ctx.current_type, ctx.current_count⟩,
      current_count := 0 }
  else ctx

/-- `add_op` (`diff_ops.c:37`): coalesce into the pending run when the kind
matches, otherwise flush the pending run and start a new one. -/
def add_op (ctx : diff_ctx_t) (type_ : Int) (count : Nat) : diff_ctx_t :=
  if type_ = ctx.current_type then
    { ctx with current_count := ctx.current_count + count }
  else
    { flush_op ctx with current_type := type_, current_count := count }

/-- One event of the stream `git_diff_buffers`/`git_diff_blobs` delivers to
the callbacks: a hunk header (its 1-based `old_start` is the only field the
code reads), a context/addition/deletion line, or any other line origin
(file headers etc., ignored by the default branch of `line_callback`). The
line-diff primitive itself is an external collaborator; the stream is the
interface the encoder consumes. -/
inductive DiffEvent where
  | hunk (old_start : Nat)
  | ctxLine
  | addLine
  | delLine
  | otherLine
deriving DecidableEq, Repr

/-- `line_callback` (`diff_ops.c:48`) and `hunk_callback` (`diff_ops.c:79`)
dispatched over one event. The hunk callback inserts an implicit Equal run
for the old-side lines skipped since the last processed position (the gap
before the hunk), advancing both positions by the gap. -/
def processEvent (ctx : diff_ctx_t) : DiffEvent → diff_ctx_t
  | DiffEvent.hunk old_start =>
    let hunk_start := old_start - 1
    if hunk_start > ctx.old_line_pos then
      let skipped := hunk_start - ctx.old_line_pos
      let ctx1 := add_op ctx CF_DIFF_EQUAL skipped
      { ctx1 with old_line_pos := hunk_start, new_line_pos := ctx1.new_line_pos + skipped }
    else ctx
  | DiffEvent.ctxLine =>
    let ctx1 := add_op ctx CF_DIFF_EQUAL 1
    { ctx1 with old_line_pos := ctx1.old_line_pos + 1, new_line_pos := ctx1.new_line_pos + 1 }
  | DiffEvent.addLine =>
    let ctx1 := add_op ctx CF_DIFF_INSERT 1
    { ctx1 with new_line_pos := ctx1.new_line_pos + 1 }
  | DiffEvent.delLine =>
    let ctx1 := add_op ctx CF_DIFF_DELETE 1
    { ctx1 with old_line_pos := ctx1.old_line_pos + 1 }
  | DiffEvent.otherLine => ctx

/-- The initial callback context (`diff_ops.c:160` and `diff_ops.c:382`):
no pending run (`current_type = -1`), positions at zero, ops empty with
capacity `CF_MAX_DIFF_OPS`. -/
def initDiffCtx : diff_ctx_t :=
  { ops := [], op_capacity := CF_MAX_DIFF_OPS, current_type := -1, current_count := 0,
    old_line_pos := 0, new_line_pos := 0 }

/-- The run encoder shared by `compute_single_diff` and
`compute_diff_with_preloaded`: process the event stream, flush the pending
run, and append the trailing implicit Equal run for old-side lines past the
last processed position. Returns the recorded ops. -/
def runEncoder (old_lines : Nat) (events : List DiffEvent) : List cf_diff_op :=
  let ctx1 := events.foldl processEvent initDiffCtx
  let ctx2 := flush_op ctx1
  let ctx3 :=
    if old_lines > ctx2.old_line_pos then
      flush_op (add_op ctx2 CF_DIFF_EQUAL (old_lines - ctx2.old_line_pos))
    else ctx2
  ctx3.ops

/-- The external line-diff primitive (`git_diff_buffers` /
`git_diff_blobs`), as the stream of callback events it emits for a given
pair of contents (`none` models an absent side: a NULL blob / NULL buffer
of size 0). Both engine paths diff the same byte contents, so one oracle
models both. The oracle is total: the `CF_ERR_DIFF` branch for a failing
primitive is outside every claim. -/
def DiffOracle := Option Bytes → Option Bytes → List DiffEvent

/-! ### `diff_ops.c`: preloading and the two diff paths -/

/-- `cf_preloaded_blob` (`diff_ops.c:205`): a transient per-batch cache
entry (bytes borrowed from the store for the duration of the call). -/
structure cf_preloaded_blob where
  oid : Oid
  data : Bytes
  size : Nat
  is_binary : Nat
  line_count : Nat
  valid : Bool
deriving DecidableEq, Repr

/-- The per-identifier body of the preload loop (`diff_ops.c:284`): read
the object; a read failure or a non-blob kind leaves the (zero-filled)
entry invalid; otherwise record the bytes and classification. -/
def preloadEntry (odb : GitOdb) (oid : Oid) : cf_preloaded_blob :=
  match fetchBlobObj odb oid with
  | none =>
    { oid := oid, data := [], size := 0, is_binary := 0, line_count := 0, valid := false }
  | some content =>
    { oid := oid, data := content, size := content.length,
      is_binary := if content.length > 0 then cf_is_binary content else 0,
      line_count :=
        if (if content.length > 0 then cf_is_binary content else 0) = 0 ∧ content.length > 0
        then cf_count_lines content else 0,
      valid := true }

/-- `cf_diff_request`: the identifiers of the two sides and their presence
flags. The inline `old_data`/`new_data` fields of the C struct are never
read by the diff engine and are omitted. -/
structure cf_diff_request where
  old_oid : Oid
  new_oid : Oid
  has_old : Bool
  has_new : Bool
deriving DecidableEq, Repr

/-- The identifier-collection loop of `preload_blobs_for_diff`
(`diff_ops.c:238`): for each request, the old identifier when present,
then the new identifier when present, in request order. -/
def collectOids (reqs : List cf_diff_request) : List Oid :=
  reqs.flatMap (fun r =>
    (if r.has_old then [r.old_oid] else []) ++ (if r.has_new then [r.new_oid] else []))

/-- The duplicate-skipping walk of the preload loop (`diff_ops.c:277`):
process an element unless it equals the previously processed one. -/
def skipDupsGo (prev : Oid) : List Oid → List Oid
  | [] => []
  | y :: t => if y = prev then skipDupsGo prev t else y :: skipDupsGo y t

/-- The full duplicate-skipping walk: the first element is always
processed (`i > 0` guards the comparison in the C loop). -/
def skipAdjDups : List Oid → List Oid
  | [] => []
  | x :: t => x :: skipDupsGo x t

/-- The identifiers `preload_blobs_for_diff` (`diff_ops.c:224`) fetches
from the store, in order: the referenced identifiers, sorted, with
duplicates skipped — one `git_odb_read` per element of this list. -/
def preloadFetchLog (reqs : List cf_diff_request) : List Oid :=
  skipAdjDups (List.insertionSort (fun a b => a ≤ b) (collectOids reqs))

/-- `preload_blobs_for_diff` (`diff_ops.c:224`): one preloaded entry per
fetched identifier, in sorted order. -/
def preload_blobs_for_diff (odb : GitOdb) (reqs : List cf_diff_request) :
    List cf_preloaded_blob :=
  (preloadFetchLog reqs).map (preloadEntry odb)

/-- The per-side validity/binary gate of `compute_diff_with_preloaded`
(`diff_ops.c:356` and `diff_ops.c:369`): absent side is fine with 0 lines;
an invalid entry is a lookup error; a binary entry is a binary error;
otherwise the side contributes its preloaded line count. -/
def sideCheck : Option cf_preloaded_blob → Except Int Nat
  | none => Except.ok 0
  | some b =>
    if ¬ b.valid then Except.error CF_ERR_LOOKUP
    else if b.is_binary ≠ 0 then Except.error CF_ERR_BINARY
    else Except.ok b.line_count

/-- `compute_diff_with_preloaded` (`diff_ops.c:344`): check both sides,
then run `git_diff_buffers` on the preloaded bytes and encode the run
stream. `cf_init_diff_result` is modelled as succeeding (ops allocated,
`some []` on error paths). -/
def compute_diff_with_preloaded (oracle : DiffOracle)
    (old_blob new_blob : Option cf_preloaded_blob) : cf_diff_result :=
  match sideCheck old_blob with
  | Except.error e => { old_lines := 0, new_lines := 0, ops := some [], error := e }
  | Except.ok ol =>
    match sideCheck new_blob with
    | Except.error e => { old_lines := ol, new_lines := 0, ops := some [], error := e }
    | Except.ok nl =>
      let events := oracle (old_blob.map (fun b => b.data)) (new_blob.map (fun b => b.data))
      { old_lines := ol, new_lines := nl, ops := some (runEncoder ol events),
        error := CF_OK }

/-- The per-side load of `compute_single_diff` (`diff_ops.c:116` and
`diff_ops.c:137`): `git_blob_lookup` (fails for missing objects and
non-blobs), then the inline binary check `size > 0 && cf_is_binary(...)`. -/
def lookupSide (odb : GitOdb) (has : Bool) (oid : Oid) : Except Int (Option Bytes) :=
  if has then
    match fetchBlobObj odb oid with
    | none => Except.error CF_ERR_LOOKUP
    | some content =>
      if content.length > 0 ∧ cf_is_binary content ≠ 0 then Except.error CF_ERR_BINARY
      else Except.ok (some content)
  else Except.ok none

/-- `compute_single_diff` (`diff_ops.c:100`): the per-pair fallback path,
loading each side directly from the repository and encoding the same run
stream. -/
def compute_single_diff (oracle : DiffOracle) (odb : GitOdb) (req : cf_diff_request) :
    cf_diff_result :=
  match lookupSide odb req.has_old req.old_oid with
  | Except.error e => { old_lines := 0, new_lines := 0, ops := some [], error := e }
  | Except.ok oData =>
    let ol := match oData with
      | some d => cf_count_lines d
      | none => 0
    match lookupSide odb req.has_new req.new_oid with
    | Except.error e => { old_lines := ol, new_lines := 0, ops := some [], error := e }
    | Except.ok nData =>
      let nl := match nData with
        | some d => cf_count_lines d
        | none => 0
      { old_lines := ol, new_lines := nl,
        ops := some (runEncoder ol (oracle oData nData)), error := CF_OK }

/-- The side resolution of `cf_batch_diff_blobs` (`diff_ops.c:488`): a
present side resolves (by binary search over the sorted unique list) to
the preloaded entry of its identifier; an absent side resolves to NULL. -/
def preloadedSideOf (odb : GitOdb) (has : Bool) (oid : Oid) : Option cf_preloaded_blob :=
  if has then some (preloadEntry odb oid) else none

/-! ### Sums of run lengths over a recorded op list -/

/-- The old-side weight of one op: its run length when it is an Equal or
Delete run. -/
def edWeight (o : cf_diff_op) : Nat :=
  if o.type_ = CF_DIFF_EQUAL ∨ o.type_ = CF_DIFF_DELETE then o.line_count else 0

/-- The new-side weight of one op: its run length when it is an Equal or
Insert run. -/
def eiWeight (o : cf_diff_op) : Nat :=
  if o.type_ = CF_DIFF_EQUAL ∨ o.type_ = CF_DIFF_INSERT then o.line_count else 0

/-- Sum of `run_length` over Equal and Delete ops. -/
def sumED (ops : List cf_diff_op) : Nat := (ops.map edWeight).sum

/-- Sum of `run_length` over Equal and Insert ops. -/
def sumEI (ops : List cf_diff_op) : Nat := (ops.map eiWeight).sum

/-- Well-formedness of an event stream with respect to the two sides' line
counts: the final old/new positions reached by the encoder do not exceed
the counts, and the trailing unprocessed regions have equal length on both
sides. Streams emitted by the line-diff primitive for buffers with these
line counts satisfy this (outside hunks the two sides coincide). -/
def eventsWellFormed (events : List DiffEvent) (old_lines new_lines : Nat) : Prop :=
  (events.foldl processEvent initDiffCtx).old_line_pos ≤ old_lines ∧
  (events.foldl processEvent initDiffCtx).new_line_pos ≤ new_lines ∧
  old_lines - (events.foldl processEvent initDiffCtx).old_line_pos =
    new_lines - (events.foldl processEvent initDiffCtx).new_line_pos

instance (events : List DiffEvent) (ol nl : Nat) :
    Decidable (eventsWellFormed events ol nl) := by
  unfold eventsWellFormed
  infer_instance

/-- The pending run's contribution to the old side: its count when it is
an Equal or Delete run (the initial `current_type = -1` contributes 0). -/
def pendED (ctx : diff_ctx_t) : Nat :=
  if ctx.current_type = CF_DIFF_EQUAL ∨ ctx.current_type = CF_DIFF_DELETE then
    ctx.current_count
  else 0

/-- The pending run's contribution to the new side. -/
def pendEI (ctx : diff_ctx_t) : Nat :=
  if ctx.current_type = CF_DIFF_EQUAL ∨ ctx.current_type = CF_DIFF_INSERT then
    ctx.current_count
  else 0

/-! ### A concrete stream exceeding the op capacity

A diff of two 66668-line buffers in which every odd line is replaced emits
one hunk with 33334 (delete, insert, context) line groups — 100002
coalesced runs, two more than `CF_MAX_DIFF_OPS`. -/

/-- One (deleted line, inserted line, context line) block. -/
def ctrTriple : List DiffEvent :=
  [DiffEvent.delLine, DiffEvent.addLine, DiffEvent.ctxLine]

/-- The over-capacity stream: one hunk header starting at line 1 followed
by 33334 blocks. -/
def ctrEvents : List DiffEvent :=
  DiffEvent.hunk 1 :: (List.replicate 33334 ctrTriple).flatten

/-- The i-th coalesced run the stream produces. -/
def ctrRun (i : Nat) : cf_diff_op :=
  match i % 3 with
  | 0 => ⟨CF_DIFF_DELETE, 1⟩
  | 1 => ⟨CF_DIFF_INSERT, 1⟩
  | _ => ⟨CF_DIFF_EQUAL, 1⟩

/-- The first k coalesced runs of the stream. -/
def ctrRuns (k : Nat) : List cf_diff_op := (List.range k).map ctrRun

/-- The encoder state after the k-th block of the stream (k ≥ 1). -/
def ctrState (k : Nat) : diff_ctx_t :=
  { ops := (ctrRuns (3 * k - 1)).take CF_MAX_DIFF_OPS,
    op_capacity := CF_MAX_DIFF_OPS, current_type := CF_DIFF_EQUAL,
    current_count := 1, old_line_pos := 2 * k, new_line_pos := 2 * k }

/-- A store holding one 66668-line text blob (66668 newline bytes). -/
def ctrOdb : GitOdb :=
  fun o => if o = 1 then some ⟨GitObjectType.blob, List.replicate 66668 10⟩ else none

end Codefang

namespace Codefang

/-! ### Theorems for claims C4 and C5 -/

theorem countNewlines_eq_count (data : Bytes) : countNewlines data = data.count 10 := by
  induction data with
  | nil => rfl
  | cons b rest ih =>
    simp only [countNewlines, ih, List.count_cons, beq_iff_eq]
    exact Nat.add_comm _ _

theorem containsZero_iff (data : Bytes) : containsZero data = true ↔ 0 ∈ data := by
  induction data with
  | nil => simp [containsZero]
  | cons b rest ih =>
    by_cases hb : b = 0
    · subst hb; simp [containsZero]
    · simp only [containsZero, if_neg hb, ih, List.mem_cons]
      constructor
      · exact Or.inr
      · rintro (h | h)
        · exact absurd h.symm hb
        · exact h

/-- Claim C4: `cf_count_lines` returns the number of newline bytes in the
buffer, plus one if the buffer is non-empty and its last byte is not a
newline; in particular it returns 0 on the empty buffer, 2 on `"a\nb\n"`,
2 on `"a\nb"` and 1 on `"\n"`. -/
theorem count_lines_spec :
    (∀ data : Bytes,
      cf_count_lines data =
        data.count 10 + (if data ≠ [] ∧ data.getLast? ≠ some 10 then 1 else 0)) ∧
    cf_count_lines [] = 0 ∧
    cf_count_lines [97, 10, 98, 10] = 2 ∧
    cf_count_lines [97, 10, 98] = 2 ∧
    cf_count_lines [10] = 1 := by
  refine ⟨?_, by decide, by decide, by decide, by decide⟩
  intro data
  rcases data with _ | ⟨b, rest⟩
  · rfl
  · simp only [cf_count_lines, List.length_cons, Nat.succ_ne_zero, if_false,
      countNewlines_eq_count, ne_eq, reduceCtorEq, not_false_eq_true, true_and]

theorem containsZero_replicate_one (n : Nat) :
    containsZero (List.replicate n (1 : Nat)) = false := by
  induction n with
  | zero => rfl
  | succ k ih => simp only [List.replicate_succ, containsZero, if_neg one_ne_zero, ih]

theorem is_binary_eq_one_iff (data : Bytes) :
    cf_is_binary data = 1 ↔ ∃ i : Nat, i < CF_BINARY_CHECK_LEN ∧ data[i]? = some 0 := by
  have hmem : (0 ∈ data.take CF_BINARY_CHECK_LEN) ↔
      ∃ i : Nat, i < CF_BINARY_CHECK_LEN ∧ data[i]? = some 0 := by
    rw [List.mem_iff_getElem?]
    constructor
    · rintro ⟨i, hi⟩
      rw [List.getElem?_take] at hi
      by_cases hlt : i < CF_BINARY_CHECK_LEN
      · exact ⟨i, hlt, by simpa [if_pos hlt] using hi⟩
      · rw [if_neg hlt] at hi; exact absurd hi (by simp)
    · rintro ⟨i, hlt, hi⟩
      exact ⟨i, by rw [List.getElem?_take, if_pos hlt]; exact hi⟩
  unfold cf_is_binary
  by_cases hlen : (data.take CF_BINARY_CHECK_LEN).length = 0
  · have hemp : data.take CF_BINARY_CHECK_LEN = [] := List.length_eq_zero.mp hlen
    rw [if_pos hlen]
    constructor
    · intro h; exact absurd h (by decide)
    · intro h
      have hz := hmem.mpr h
      rw [hemp] at hz
      exact absurd hz (List.not_mem_nil 0)
  · rw [if_neg hlen]
    by_cases hz : containsZero (data.take CF_BINARY_CHECK_LEN)
    · rw [if_pos hz]
      constructor
      · intro _; exact hmem.mp ((containsZero_iff _).mp hz)
      · intro _; rfl
    · rw [if_neg hz]
      constructor
      · intro h; exact absurd h (by decide)
      · intro h
        exact absurd ((containsZero_iff _).mpr (hmem.mpr h)) hz

/-- Claim C5: `cf_is_binary` returns 1 exactly when a zero byte occurs among
the first `min(size, 8000)` bytes of the buffer; a buffer whose only zero
byte is at position 8000 is classified as not binary, and the empty buffer
is classified as not binary. -/
theorem is_binary_spec :
    (∀ data : Bytes,
      (cf_is_binary data = 1 ↔
        ∃ i : Nat, i < CF_BINARY_CHECK_LEN ∧ data[i]? = some 0)) ∧
    cf_is_binary (List.replicate 8000 1 ++ [0]) = 0 ∧
    cf_is_binary [] = 0 := by
  refine ⟨is_binary_eq_one_iff, ?_, by decide⟩
  have htake : (List.replicate 8000 1 ++ [0]).take CF_BINARY_CHECK_LEN
      = List.replicate 8000 (1 : Nat) := by
    have h1 : CF_BINARY_CHECK_LEN ≤ (List.replicate 8000 (1 : Nat)).length := by
      rw [List.length_replicate]; decide
    have h2 : (List.replicate 8000 (1 : Nat)).length ≤ CF_BINARY_CHECK_LEN := by
      rw [List.length_replicate]; decide
    rw [List.take_append_of_le_length h1, List.take_of_length_le h2]
  unfold cf_is_binary
  rw [htake, containsZero_replicate_one]
  have hne : ¬ (List.replicate 8000 (1 : Nat)).length = 0 := by
    rw [List.length_replicate]; decide
  rw [if_neg hne]
  simp only [Bool.false_eq_true, if_false]

theorem cf_count_lines_of_length_zero (d : Bytes) (h : d.length = 0) :
    cf_count_lines d = 0 := by
  unfold cf_count_lines
  rw [if_pos h]

/-! ### Theorem for claim C10 -/

/-- Claim C10: calling `cf_free_blob_results` (resp. `cf_free_diff_results`)
a second time on the output of a first call performs zero `free` calls and
leaves every result unchanged, because the first call set every freed
pointer to NULL. -/
theorem free_results_idempotent :
    (∀ results : List cf_blob_result,
      cf_free_blob_results (cf_free_blob_results results).1 =
        ((cf_free_blob_results results).1, 0)) ∧
    (∀ results : List cf_diff_result,
      cf_free_diff_results (cf_free_diff_results results).1 =
        ((cf_free_diff_results results).1, 0)) := by
  constructor
  · intro results
    unfold cf_free_blob_results
    induction results with
    | nil => rfl
    | cons r t ih =>
      simp only [List.map_cons, List.filter_cons] at ih ⊢
      by_cases h : r.data.isSome
      · simpa [h] using ih
      · have hnone : r.data = none := Option.not_isSome_iff_eq_none.mp h
        simpa [h, hnone] using ih
  · intro results
    unfold cf_free_diff_results
    induction results with
    | nil => rfl
    | cons r t ih =>
      simp only [List.map_cons, List.filter_cons] at ih ⊢
      by_cases h : r.ops.isSome
      · simpa [h] using ih
      · have hnone : r.ops = none := Option.not_isSome_iff_eq_none.mp h
        simpa [h, hnone] using ih

/-! ### Theorem for claim C7 -/

theorem single_preload_agree (oracle : DiffOracle) (odb : GitOdb)
    (req : cf_diff_request) :
    compute_single_diff oracle odb req =
      compute_diff_with_preloaded oracle
        (preloadedSideOf odb req.has_old req.old_oid)
        (preloadedSideOf odb req.has_new req.new_oid) := by
  have side : ∀ (has : Bool) (oid : Oid),
      (lookupSide odb has oid = Except.error CF_ERR_LOOKUP ∧
        sideCheck (preloadedSideOf odb has oid) = Except.error CF_ERR_LOOKUP) ∨
      (lookupSide odb has oid = Except.error CF_ERR_BINARY ∧
        sideCheck (preloadedSideOf odb has oid) = Except.error CF_ERR_BINARY) ∨
      (∃ od : Option Bytes,
        lookupSide odb has oid = Except.ok od ∧
        sideCheck (preloadedSideOf odb has oid) =
          Except.ok (match od with | some d => cf_count_lines d | none => 0) ∧
        (preloadedSideOf odb has oid).map (fun b => b.data) = od) := by
    intro has oid
    cases has with
    | false =>
      right; right
      exact ⟨none, rfl, rfl, rfl⟩
    | true =>
      cases hfetch : fetchBlobObj odb oid with
      | none =>
        left
        constructor
        · simp [lookupSide, hfetch]
        · simp [preloadedSideOf, sideCheck, preloadEntry, hfetch]
      | some content =>
        by_cases hbin : content.length > 0 ∧ cf_is_binary content ≠ 0
        · right; left
          constructor
          · simp only [lookupSide, hfetch, if_pos hbin, if_pos rfl, if_pos trivial]
          · have hb : (if content.length > 0 then cf_is_binary content else 0) ≠ 0 := by
              rw [if_pos hbin.1]; exact hbin.2
            simp [preloadedSideOf, sideCheck, preloadEntry, hfetch, hb]
        · right; right
          refine ⟨some content, ?_, ?_, ?_⟩
          · simp only [lookupSide, hfetch, if_neg hbin, if_pos rfl, if_pos trivial]
          · by_cases hlen : content.length > 0
            · have hnb : cf_is_binary content = 0 := by
                by_contra h
                exact hbin ⟨hlen, h⟩
              simp [preloadedSideOf, sideCheck, preloadEntry, hfetch, hlen, hnb]
            · have hlen0 : content.length = 0 := Nat.eq_zero_of_not_pos hlen
              simp [preloadedSideOf, sideCheck, preloadEntry, hfetch, hlen,
                cf_count_lines_of_length_zero content hlen0]
          · simp [preloadedSideOf, preloadEntry, hfetch]
  unfold compute_single_diff compute_diff_with_preloaded
  rcases side req.has_old req.old_oid with ⟨h1, h2⟩ | ⟨h1, h2⟩ | ⟨od, h1, h2, h3⟩ <;>
    rw [h1, h2]
  rcases side req.has_new req.new_oid with ⟨g1, g2⟩ | ⟨g1, g2⟩ | ⟨nd, g1, g2, g3⟩ <;>
    rw [g1, g2] <;> rw [h3] <;> try rw [g3]

/-- Claim C7: for every diff request pair, the per-pair fallback path
(`compute_single_diff`) produces the same `cf_diff_result` — line counts,
error code and op sequence — as the preloaded path
(`compute_diff_with_preloaded`) applied to the preloaded entries built
from the same store. -/
theorem single_diff_eq_preloaded (oracle : DiffOracle) (odb : GitOdb)
    (req : cf_diff_request) :
    compute_single_diff oracle odb req =
      compute_diff_with_preloaded oracle
        (preloadedSideOf odb req.has_old req.old_oid)
        (preloadedSideOf odb req.has_new req.new_oid) :=
  single_preload_agree oracle odb req

/-! ### Theorems for claims C9 and C3 -/

/-- Claim C9: in the loop of `cf_batch_load_blobs_arena`, an item whose
fetched size would make the running offset exceed the capacity is marked
`CF_ERR_ARENA_FULL`; the running offset is unchanged, nothing is written
to the arena, the item's `(offset, size)` stay untouched, and the fold
continues with the remaining items from this state. -/
theorem arena_full_skips (odb : GitOdb) (capacity : Nat) (st : ArenaState)
    (p : Nat × Oid) (data : Bytes) (hfetch : fetchBlobObj odb p.2 = some data)
    (hover : capacity < st.global_offset + data.length) :
    arenaStep odb capacity st p =
      { st with
        results := updAt st.results p.1 (fun r => { r with error := CF_ERR_ARENA_FULL }) } ∧
    (arenaStep odb capacity st p).global_offset = st.global_offset ∧
    (arenaStep odb capacity st p).writes = st.writes ∧
    ∀ rest : List (Nat × Oid),
      (p :: rest).foldl (arenaStep odb capacity) st =
        rest.foldl (arenaStep odb capacity) (arenaStep odb capacity st p) := by
  have hstep : arenaStep odb capacity st p =
      { st with
        results := updAt st.results p.1 (fun r => { r with error := CF_ERR_ARENA_FULL }) } := by
    have hle : ¬ st.global_offset + data.length ≤ capacity := by omega
    simp only [arenaStep, hfetch, if_neg hle]
  refine ⟨hstep, ?_, ?_, fun rest => rfl⟩
  · rw [hstep]
  · rw [hstep]

theorem arena_full_skips_witness :
    (arenaStep (fun o => if o = 1 then some ⟨GitObjectType.blob, [49, 10]⟩ else none) 1
        { results := [initArenaResult 1], global_offset := 0, writes := [] } (0, 1)) =
      { results := [{ oid := 1, offset := 0, size := 0, error := CF_ERR_ARENA_FULL,
                      is_binary := 0, line_count := 0 }],
        global_offset := 0, writes := [] } := by
  have h := arena_full_skips
    (fun o => if o = 1 then some ⟨GitObjectType.blob, [49, 10]⟩ else none) 1
    { results := [initArenaResult 1], global_offset := 0, writes := [] } (0, 1)
    [49, 10] (by decide) (by decide)
  rw [h.1]
  decide

/-- Claim C3 (failing input): a store holding a single zero-byte blob. The
arena variant reports the empty blob as binary (`is_binary = 1`), while
the classifier branch of `load_single_blob_odb` (used by
`cf_batch_load_blobs`) and the flat loader both report it as not binary —
the arena variant's collapsed classification
`if (size > 0 && !cf_is_binary(...)) ... else is_binary = 1` contradicts
the spec's «Empty input ⇒ not binary» and its sibling variants. -/
theorem arena_variant_misclassifies_empty_blob :
    (cf_batch_load_blobs_arena
        (fun o => if o = 5 then some ⟨GitObjectType.blob, []⟩ else none) [5] 100).results =
      [{ oid := 5, offset := 0, size := 0, error := CF_OK, is_binary := 1, line_count := 0 }] ∧
    load_single_blob_odb
        (fun o => if o = 5 then some ⟨GitObjectType.blob, []⟩ else none) 5 =
      { oid := 5, data := none, size := 0, error := CF_OK, is_binary := 0, line_count := 0 } ∧
    (cf_batch_load_blobs_flat
        (fun o => if o = 5 then some ⟨GitObjectType.blob, []⟩ else none) [5]).1 =
      [{ oid := 5, offset := 0, size := 0, error := CF_OK, is_binary := 0, line_count := 0 }] := by
  refine ⟨by decide, by decide, by decide⟩

/-! ### Index-addressed folds over the sorted work list -/

theorem updAt_length (res : List α) (j : Nat) (f : α → α) :
    (updAt res j f).length = res.length := by
  unfold updAt
  cases h : res[j]? with
  | none => rfl
  | some a => exact List.length_set ..

theorem updAt_getElem?_ne (res : List α) (j : Nat) (f : α → α) (i : Nat) (h : i ≠ j) :
    (updAt res j f)[i]? = res[i]? := by
  unfold updAt
  cases hj : res[j]? with
  | none => rfl
  | some a => exact List.getElem?_set_ne (fun he => h he.symm)

theorem updAt_getElem?_self (res : List α) (j : Nat) (f : α → α) :
    (updAt res j f)[j]? = (res[j]?).map f := by
  unfold updAt
  cases hj : res[j]? with
  | none => rw [hj]; rfl
  | some a =>
    have hlt : j < res.length := by
      by_contra hge
      rw [List.getElem?_eq_none (Nat.le_of_not_lt hge)] at hj
      exact Option.noConfusion hj
    simp [List.getElem?_set_self, hlt]

theorem foldl_set_length (g : Oid → β) (ps : List (Nat × Oid)) (init : List β) :
    (ps.foldl (fun res p => res.set p.1 (g p.2)) init).length = init.length := by
  induction ps generalizing init with
  | nil => rfl
  | cons p t ih =>
    rw [List.foldl_cons, ih]
    exact List.length_set ..

theorem foldl_set_getElem?_of_nokey (g : Oid → β) (ps : List (Nat × Oid)) (init : List β)
    (j : Nat) (h : ∀ p ∈ ps, p.1 ≠ j) :
    (ps.foldl (fun res p => res.set p.1 (g p.2)) init)[j]? = init[j]? := by
  induction ps generalizing init with
  | nil => rfl
  | cons p t ih =>
    rw [List.foldl_cons, ih _ (fun q hq => h q (List.mem_cons_of_mem p hq))]
    exact List.getElem?_set_ne (fun he => h p (List.mem_cons_self p t) he)

theorem foldl_set_getElem?_of_key (g : Oid → β) (ps : List (Nat × Oid)) (init : List β)
    (j : Nat) (oid : Oid) (hmem : (j, oid) ∈ ps) (hnd : (ps.map Prod.fst).Nodup)
    (hj : j < init.length) :
    (ps.foldl (fun res p => res.set p.1 (g p.2)) init)[j]? = some (g oid) := by
  induction ps generalizing init with
  | nil => exact absurd hmem (List.not_mem_nil _)
  | cons p t ih =>
    rw [List.map_cons, List.nodup_cons] at hnd
    rw [List.foldl_cons]
    rcases List.mem_cons.mp hmem with heq | hmem2
    · subst heq
      have hno : ∀ q ∈ t, q.1 ≠ j := by
        intro q hq he
        apply hnd.1
        show j ∈ List.map Prod.fst t
        rw [← he]
        exact List.mem_map_of_mem Prod.fst hq
      rw [foldl_set_getElem?_of_nokey _ _ _ _ hno]
      simp [List.getElem?_set_self, hj]
    · have hkey : j ∈ t.map Prod.fst := by
        have := List.mem_map_of_mem Prod.fst hmem2
        simpa using this
      exact ih (init.set p.1 (g p.2)) hmem2 hnd.2 (by rw [List.length_set]; exact hj)

/-! ### Properties of the sorted work list -/

theorem sortedWithIndex_perm (reqs : List Oid) :
    List.Perm (sortedWithIndex reqs) reqs.enum :=
  List.perm_insertionSort _ _

theorem sortedWithIndex_keys_nodup (reqs : List Oid) :
    ((sortedWithIndex reqs).map Prod.fst).Nodup :=
  (((sortedWithIndex_perm reqs).map Prod.fst).nodup_iff).mpr
    (by rw [List.enum_map_fst]; exact List.nodup_range _)

theorem mem_sortedWithIndex (reqs : List Oid) (i : Nat) (oid : Oid)
    (h : reqs[i]? = some oid) : (i, oid) ∈ sortedWithIndex reqs :=
  ((sortedWithIndex_perm reqs).mem_iff).mpr (List.mem_enum_iff_getElem?.mpr h)

theorem sortedWithIndex_mem_spec (reqs : List Oid) (p : Nat × Oid)
    (h : p ∈ sortedWithIndex reqs) : reqs[p.1]? = some p.2 :=
  List.mem_enum_iff_getElem?.mp (((sortedWithIndex_perm reqs).mem_iff).mp h)

theorem load_single_blob_odb_oid (odb : GitOdb) (oid : Oid) :
    (load_single_blob_odb odb oid).oid = oid := by
  unfold load_single_blob_odb
  cases fetchBlobObj odb oid with
  | none => rfl
  | some content => rfl

/-! ### Theorem for claim C8 -/

/-- Claim C8: `cf_batch_load_blobs` delivers results in the caller's
original request order, regardless of the internal identifier sort (and of
the parallel path, whose per-slot writes coincide with the sequential
ones): the result in slot `i` is exactly the single-blob load of request
`i`'s identifier, and carries that identifier. -/
theorem batch_load_results_in_request_order (odb : GitOdb) (reqs : List Oid) :
    (cf_batch_load_blobs odb reqs).length = reqs.length ∧
    ∀ i : Nat, ∀ oid : Oid, reqs[i]? = some oid →
      (cf_batch_load_blobs odb reqs)[i]? = some (load_single_blob_odb odb oid) ∧
      (load_single_blob_odb odb oid).oid = oid := by
  constructor
  · unfold cf_batch_load_blobs
    by_cases h : reqs.length ≤ 4
    · rw [if_pos h, List.length_map]
    · rw [if_neg h, foldl_set_length, List.length_map]
  · intro i oid h
    refine ⟨?_, load_single_blob_odb_oid odb oid⟩
    unfold cf_batch_load_blobs
    by_cases hs : reqs.length ≤ 4
    · rw [if_pos hs, List.getElem?_map, h]
      rfl
    · rw [if_neg hs]
      have hi : i < reqs.length := by
        by_contra hge
        rw [List.getElem?_eq_none (Nat.le_of_not_lt hge)] at h
        exact Option.noConfusion h
      exact foldl_set_getElem?_of_key _ _ _ i oid (mem_sortedWithIndex reqs i oid h)
        (sortedWithIndex_keys_nodup reqs) (by rw [List.length_map]; exact hi)

/-! ### The flat loader: phase lemmas -/

theorem applyUpdates_cons (act : Nat × Option Bytes → Option (α → α))
    (e : Nat × Option Bytes) (t : List (Nat × Option Bytes)) (res : List α) :
    applyUpdates act (e :: t) res =
      applyUpdates act t
        (match act e with
         | none => res
         | some f => updAt res e.1 f) := rfl

theorem applyUpdates_append (act : Nat × Option Bytes → Option (α → α))
    (a b : List (Nat × Option Bytes)) (res : List α) :
    applyUpdates act (a ++ b) res = applyUpdates act b (applyUpdates act a res) := by
  unfold applyUpdates
  exact List.foldl_append ..

theorem applyUpdates_length (act : Nat × Option Bytes → Option (α → α))
    (entries : List (Nat × Option Bytes)) (res : List α) :
    (applyUpdates act entries res).length = res.length := by
  induction entries generalizing res with
  | nil => rfl
  | cons e t ih =>
    rw [applyUpdates_cons]
    cases hae : act e with
    | none => rw [ih]
    | some f => rw [ih, updAt_length]

theorem applyUpdates_getElem?_of_nokey (act : Nat × Option Bytes → Option (α → α))
    (entries : List (Nat × Option Bytes)) (res : List α) (j : Nat)
    (h : ∀ e ∈ entries, e.1 ≠ j ∨ act e = none) :
    (applyUpdates act entries res)[j]? = res[j]? := by
  induction entries generalizing res with
  | nil => rfl
  | cons e t ih =>
    rw [applyUpdates_cons]
    cases hae : act e with
    | none => exact ih _ (fun q hq => h q (List.mem_cons_of_mem e hq))
    | some f =>
      rw [ih _ (fun q hq => h q (List.mem_cons_of_mem e hq))]
      rcases h e (List.mem_cons_self e t) with hne | hnone
      · exact updAt_getElem?_ne res e.1 f j hne.symm
      · rw [hnone] at hae; exact Option.noConfusion hae

theorem applyUpdates_getElem?_split (act : Nat × Option Bytes → Option (α → α))
    (l₁ l₂ : List (Nat × Option Bytes)) (j : Nat) (v : Option Bytes) (res : List α)
    (h1 : ∀ e ∈ l₁, e.1 ≠ j) (h2 : ∀ e ∈ l₂, e.1 ≠ j) :
    (applyUpdates act (l₁ ++ (j, v) :: l₂) res)[j]? =
      (match act (j, v) with
       | none => res[j]?
       | some f => (res[j]?).map f) := by
  rw [applyUpdates_append, applyUpdates_cons]
  cases hae : act (j, v) with
  | none =>
    simp only [hae]
    rw [applyUpdates_getElem?_of_nokey _ _ _ _ (fun q hq => Or.inl (h2 q hq)),
      applyUpdates_getElem?_of_nokey _ _ _ _ (fun q hq => Or.inl (h1 q hq))]
  | some f =>
    simp only [hae]
    rw [applyUpdates_getElem?_of_nokey _ _ _ _ (fun q hq => Or.inl (h2 q hq)),
      updAt_getElem?_self,
      applyUpdates_getElem?_of_nokey _ _ _ _ (fun q hq => Or.inl (h1 q hq))]

theorem flatPhase2_cons (e : Nat × Option Bytes) (t : List (Nat × Option Bytes))
    (acc : List cf_blob_arena_result × Nat) :
    flatPhase2 (e :: t) acc =
      flatPhase2 t
        (match e.2 with
         | none => acc
         | some data =>
           (updAt acc.1 e.1 (fun r => { r with offset := acc.2, size := data.length }),
            acc.2 + data.length)) := rfl

theorem flatPhase2_append (a b : List (Nat × Option Bytes))
    (acc : List cf_blob_arena_result × Nat) :
    flatPhase2 (a ++ b) acc = flatPhase2 b (flatPhase2 a acc) := by
  unfold flatPhase2
  exact List.foldl_append ..

theorem flatPhase2_total (entries : List (Nat × Option Bytes))
    (acc : List cf_blob_arena_result × Nat) :
    (flatPhase2 entries acc).2 = acc.2 + (succSizes entries).sum := by
  induction entries generalizing acc with
  | nil => simp [flatPhase2, succSizes]
  | cons e t ih =>
    rw [flatPhase2_cons]
    cases he : e.2 with
    | none =>
      rw [ih]
      simp [succSizes, List.filterMap_cons, he]
    | some data =>
      have hs : succSizes (e :: t) = data.length :: succSizes t := by
        simp [succSizes, List.filterMap_cons, he]
      rw [ih, hs, List.sum_cons]
      simp only []
      omega

theorem flatPhase2_results_length (entries : List (Nat × Option Bytes))
    (acc : List cf_blob_arena_result × Nat) :
    (flatPhase2 entries acc).1.length = acc.1.length := by
  induction entries generalizing acc with
  | nil => rfl
  | cons e t ih =>
    rw [flatPhase2_cons]
    cases he : e.2 with
    | none => rw [ih]
    | some data => rw [ih]; exact updAt_length ..

theorem flatPhase2_getElem?_of_nokey (entries : List (Nat × Option Bytes))
    (acc : List cf_blob_arena_result × Nat) (j : Nat)
    (h : ∀ e ∈ entries, e.1 ≠ j ∨ e.2 = none) :
    ((flatPhase2 entries acc).1)[j]? = acc.1[j]? := by
  induction entries generalizing acc with
  | nil => rfl
  | cons e t ih =>
    rw [flatPhase2_cons]
    cases he : e.2 with
    | none => exact ih _ (fun q hq => h q (List.mem_cons_of_mem e hq))
    | some data =>
      rw [ih _ (fun q hq => h q (List.mem_cons_of_mem e hq))]
      rcases h e (List.mem_cons_self e t) with hne | hnone
      · exact updAt_getElem?_ne _ e.1 _ j hne.symm
      · rw [hnone] at he; exact Option.noConfusion he

theorem flatPhase2_getElem?_split (l₁ l₂ : List (Nat × Option Bytes)) (j : Nat)
    (data : Bytes) (acc : List cf_blob_arena_result × Nat)
    (h1 : ∀ e ∈ l₁, e.1 ≠ j) (h2 : ∀ e ∈ l₂, e.1 ≠ j) :
    ((flatPhase2 (l₁ ++ (j, some data) :: l₂) acc).1)[j]? =
      (acc.1[j]?).map
        (fun r => { r with offset := acc.2 + (succSizes l₁).sum, size := data.length }) := by
  rw [flatPhase2_append, flatPhase2_cons]
  rw [flatPhase2_getElem?_of_nokey _ _ _ (fun q hq => Or.inl (h2 q hq))]
  have hmid : ((j, some data) : Nat × Option Bytes).2 = some data := rfl
  simp only
  rw [updAt_getElem?_self,
    flatPhase2_getElem?_of_nokey _ _ _ (fun q hq => Or.inl (h1 q hq)),
    flatPhase2_total]

/-! ### The flat loader: work-list facts and per-slot characterisation -/

theorem flatEntries_keys_nodup (odb : GitOdb) (reqs : List Oid) :
    ((flatEntries odb reqs).map Prod.fst).Nodup := by
  unfold flatEntries
  rw [List.map_map]
  exact sortedWithIndex_keys_nodup reqs

theorem mem_flatEntries (odb : GitOdb) (reqs : List Oid) (i : Nat) (oid : Oid)
    (h : reqs[i]? = some oid) :
    ((i, fetchBlobObj odb oid) : Nat × Option Bytes) ∈ flatEntries odb reqs := by
  unfold flatEntries
  exact List.mem_map_of_mem _ (mem_sortedWithIndex reqs i oid h)

theorem flatEntries_mem_spec (odb : GitOdb) (reqs : List Oid) (e : Nat × Option Bytes)
    (h : e ∈ flatEntries odb reqs) :
    ∃ oid : Oid, reqs[e.1]? = some oid ∧ e.2 = fetchBlobObj odb oid := by
  unfold flatEntries at h
  rcases List.mem_map.mp h with ⟨p, hp, hpe⟩
  refine ⟨p.2, ?_, ?_⟩
  · rw [← hpe]; exact sortedWithIndex_mem_spec reqs p hp
  · rw [← hpe]

theorem nokey_of_split (entries l₁ l₂ : List (Nat × Option Bytes))
    (e₀ : Nat × Option Bytes) (hnd : (entries.map Prod.fst).Nodup)
    (hsplit : entries = l₁ ++ e₀ :: l₂) :
    (∀ q ∈ l₁, q.1 ≠ e₀.1) ∧ (∀ q ∈ l₂, q.1 ≠ e₀.1) := by
  subst hsplit
  have h2 : (l₁.map Prod.fst ++ e₀.1 :: l₂.map Prod.fst).Nodup := by
    simpa using hnd
  have h3 := List.nodup_middle.mp h2
  rw [List.nodup_cons] at h3
  constructor
  · intro q hq he
    apply h3.1
    apply List.mem_append.mpr
    left
    rw [← he]
    exact List.mem_map_of_mem Prod.fst hq
  · intro q hq he
    apply h3.1
    apply List.mem_append.mpr
    right
    rw [← he]
    exact List.mem_map_of_mem Prod.fst hq

theorem split_of_mem_entries (entries : List (Nat × Option Bytes))
    (e : Nat × Option Bytes) (hmem : e ∈ entries)
    (hnd : (entries.map Prod.fst).Nodup) :
    ∃ l₁ l₂, entries = l₁ ++ e :: l₂ ∧
      (∀ q ∈ l₁, q.1 ≠ e.1) ∧ (∀ q ∈ l₂, q.1 ≠ e.1) := by
  rcases List.append_of_mem hmem with ⟨l₁, l₂, hsplit⟩
  rcases nokey_of_split entries l₁ l₂ e hnd hsplit with ⟨h1, h2⟩
  exact ⟨l₁, l₂, hsplit, h1, h2⟩

theorem flatClassify_of_none (e : Nat × Option Bytes) (h : e.2 = none) :
    flatClassify e = none := by
  simp only [flatClassify, h]

theorem flatMarkErrors_of_some (e : Nat × Option Bytes) (d : Bytes) (h : e.2 = some d) :
    flatMarkErrors e = none := by
  simp only [flatMarkErrors, h]

theorem entries_value_at_key (odb : GitOdb) (reqs : List Oid) (j : Nat) (oid : Oid)
    (hj : reqs[j]? = some oid) (e : Nat × Option Bytes)
    (he : e ∈ flatEntries odb reqs) (hkey : e.1 = j) :
    e.2 = fetchBlobObj odb oid := by
  rcases flatEntries_mem_spec odb reqs e he with ⟨oid2, hoid2, hdata⟩
  rw [hkey, hj] at hoid2
  rw [hdata, Option.some.inj hoid2]

theorem flat_slot_fail (odb : GitOdb) (reqs : List Oid) (j : Nat) (oid : Oid)
    (hj : reqs[j]? = some oid) (hf : fetchBlobObj odb oid = none) :
    ((cf_batch_load_blobs_flat odb reqs).1)[j]? =
      some { initArenaResult oid with error := CF_ERR_LOOKUP } := by
  have hmem : ((j, none) : Nat × Option Bytes) ∈ flatEntries odb reqs := by
    have := mem_flatEntries odb reqs j oid hj
    rwa [hf] at this
  rcases split_of_mem_entries _ _ hmem (flatEntries_keys_nodup odb reqs) with
    ⟨l₁, l₂, hsplit, h1, h2⟩
  have hnone : ∀ e ∈ flatEntries odb reqs, e.1 ≠ j ∨ e.2 = none := by
    intro e he
    by_cases hkey : e.1 = j
    · right
      rw [entries_value_at_key odb reqs j oid hj e he hkey, hf]
    · exact Or.inl hkey
  show (applyUpdates flatClassify (flatEntries odb reqs)
      (flatPhase2 (flatEntries odb reqs)
        (applyUpdates flatMarkErrors (flatEntries odb reqs)
          (reqs.map initArenaResult), 0)).1)[j]? = _
  rw [applyUpdates_getElem?_of_nokey _ _ _ _
      (fun e he => (hnone e he).imp id (flatClassify_of_none e)),
    flatPhase2_getElem?_of_nokey _ _ _ hnone]
  conv =>
    lhs
    rw [hsplit]
  rw [applyUpdates_getElem?_split flatMarkErrors l₁ l₂ j none
    (reqs.map initArenaResult) h1 h2]
  rw [List.getElem?_map, hj]
  rfl

theorem flat_slot_success (odb : GitOdb) (reqs : List Oid) (j : Nat) (oid : Oid)
    (data : Bytes) (l₁ l₂ : List (Nat × Option Bytes)) (hj : reqs[j]? = some oid)
    (hsplit : flatEntries odb reqs = l₁ ++ (j, some data) :: l₂) :
    ∃ r : cf_blob_arena_result,
      ((cf_batch_load_blobs_flat odb reqs).1)[j]? = some r ∧
      r.offset = (succSizes l₁).sum ∧ r.size = data.length ∧ r.error = CF_OK := by
  rcases nokey_of_split _ l₁ l₂ _ (flatEntries_keys_nodup odb reqs) hsplit with ⟨h1, h2⟩
  have hfetch : fetchBlobObj odb oid = some data := by
    have hmemj : ((j, some data) : Nat × Option Bytes) ∈ flatEntries odb reqs := by
      rw [hsplit]
      exact List.mem_append.mpr (Or.inr (List.mem_cons_self _ _))
    have := entries_value_at_key odb reqs j oid hj _ hmemj rfl
    exact this.symm
  have hmark : ∀ e ∈ flatEntries odb reqs, e.1 ≠ j ∨ flatMarkErrors e = none := by
    intro e he
    by_cases hkey : e.1 = j
    · right
      have hval := entries_value_at_key odb reqs j oid hj e he hkey
      rw [hfetch] at hval
      exact flatMarkErrors_of_some e data hval
    · exact Or.inl hkey
  have hres1 : (applyUpdates flatMarkErrors (flatEntries odb reqs)
      (reqs.map initArenaResult))[j]? = some (initArenaResult oid) := by
    rw [applyUpdates_getElem?_of_nokey _ _ _ _ hmark, List.getElem?_map, hj]
    rfl
  rw [hsplit] at hres1
  have hres2 : ((flatPhase2 (l₁ ++ (j, some data) :: l₂)
      (applyUpdates flatMarkErrors (l₁ ++ (j, some data) :: l₂)
        (reqs.map initArenaResult), 0)).1)[j]? =
      some { initArenaResult oid with
             offset := (succSizes l₁).sum, size := data.length } := by
    rw [flatPhase2_getElem?_split l₁ l₂ j data _ h1 h2, hres1]
    simp
  have hmain : ((cf_batch_load_blobs_flat odb reqs).1)[j]? =
      (match flatClassify (j, some data) with
       | none =>
         some { initArenaResult oid with
                offset := (succSizes l₁).sum, size := data.length }
       | some f =>
         some (f { initArenaResult oid with
                   offset := (succSizes l₁).sum, size := data.length })) := by
    show (applyUpdates flatClassify (flatEntries odb reqs)
        (flatPhase2 (flatEntries odb reqs)
          (applyUpdates flatMarkErrors (flatEntries odb reqs)
            (reqs.map initArenaResult), 0)).1)[j]? = _
    rw [hsplit, applyUpdates_getElem?_split flatClassify l₁ l₂ j (some data) _ h1 h2,
      hres2]
    cases flatClassify (j, some data) with
    | none => rfl
    | some f => rfl
  by_cases hlen : data.length > 0
  · have hcl0 : flatClassify (j, some data) =
        if data.length > 0 then
          some (fun r =>
            { r with
              is_binary := cf_is_binary data,
              line_count := if cf_is_binary data = 0 then cf_count_lines data
                            else r.line_count })
        else none := rfl
    have hcl : flatClassify (j, some data) = some (fun r =>
        { r with
          is_binary := cf_is_binary data,
          line_count := if cf_is_binary data = 0 then cf_count_lines data
                        else r.line_count }) := by
      rw [hcl0, if_pos hlen]
    rw [hcl] at hmain
    exact ⟨_, hmain, rfl, rfl, rfl⟩
  · have hcl0 : flatClassify (j, some data) =
        if data.length > 0 then
          some (fun r =>
            { r with
              is_binary := cf_is_binary data,
              line_count := if cf_is_binary data = 0 then cf_count_lines data
                            else r.line_count })
        else none := rfl
    have hcl : flatClassify (j, some data) = none := by
      rw [hcl0, if_neg hlen]
    rw [hcl] at hmain
    exact ⟨_, hmain, rfl, rfl, rfl⟩

theorem lt_length_of_getElem?_some (l : List α) (i : Nat) (a : α) (h : l[i]? = some a) :
    i < l.length := by
  by_contra hge
  rw [List.getElem?_eq_none (Nat.le_of_not_lt hge)] at h
  exact Option.noConfusion h

theorem succSizes_split (l₁ l₂ : List (Nat × Option Bytes)) (j : Nat) (data : Bytes) :
    succSizes (l₁ ++ (j, some data) :: l₂) =
      succSizes l₁ ++ data.length :: succSizes l₂ := by
  unfold succSizes
  rw [List.filterMap_append, List.filterMap_cons]
  rfl

theorem flat_results_length (odb : GitOdb) (reqs : List Oid) :
    (cf_batch_load_blobs_flat odb reqs).1.length = reqs.length := by
  show (applyUpdates flatClassify (flatEntries odb reqs)
      (flatPhase2 (flatEntries odb reqs)
        (applyUpdates flatMarkErrors (flatEntries odb reqs)
          (reqs.map initArenaResult), 0)).1).length = reqs.length
  rw [applyUpdates_length, flatPhase2_results_length, applyUpdates_length,
    List.length_map]

theorem flat_arena_size_eq_sum (odb : GitOdb) (reqs : List Oid) :
    (cf_batch_load_blobs_flat odb reqs).2 = (succSizes (flatEntries odb reqs)).sum := by
  show (flatPhase2 (flatEntries odb reqs)
      (applyUpdates flatMarkErrors (flatEntries odb reqs)
        (reqs.map initArenaResult), 0)).2 = _
  rw [flatPhase2_total]
  simp

theorem filterMap_length_sum (odb : GitOdb) (m : List Oid) :
    (m.filterMap (fun oid => (fetchBlobObj odb oid).map List.length)).sum =
      (m.map (sizeAt odb)).sum := by
  induction m with
  | nil => rfl
  | cons o t ih =>
    cases hf : fetchBlobObj odb o with
    | none =>
      have hcons : (o :: t).filterMap (fun oid => (fetchBlobObj odb oid).map List.length)
          = t.filterMap (fun oid => (fetchBlobObj odb oid).map List.length) := by
        rw [List.filterMap_cons]
        simp [hf]
      have hsz : sizeAt odb o = 0 := by unfold sizeAt; rw [hf]
      rw [hcons, List.map_cons, List.sum_cons, ih, hsz]
      omega
    | some d =>
      have hcons : (o :: t).filterMap (fun oid => (fetchBlobObj odb oid).map List.length)
          = d.length :: t.filterMap (fun oid => (fetchBlobObj odb oid).map List.length) := by
        rw [List.filterMap_cons]
        simp [hf]
      have hsz : sizeAt odb o = d.length := by unfold sizeAt; rw [hf]
      rw [hcons, List.sum_cons, List.map_cons, List.sum_cons, ih, hsz]

theorem succSizes_flatEntries_sum (odb : GitOdb) (reqs : List Oid) :
    (succSizes (flatEntries odb reqs)).sum = (reqs.map (sizeAt odb)).sum := by
  have hperm : List.Perm (flatEntries odb reqs)
      (reqs.enum.map (fun p => (p.1, fetchBlobObj odb p.2))) :=
    (sortedWithIndex_perm reqs).map _
  have h1 : (succSizes (flatEntries odb reqs)).sum =
      (succSizes (reqs.enum.map (fun p => (p.1, fetchBlobObj odb p.2)))).sum :=
    (hperm.filterMap _).sum_eq
  have h2 : succSizes (reqs.enum.map (fun p => (p.1, fetchBlobObj odb p.2))) =
      reqs.filterMap (fun oid => (fetchBlobObj odb oid).map List.length) := by
    unfold succSizes
    rw [List.filterMap_map]
    have h3 : reqs.filterMap (fun oid => (fetchBlobObj odb oid).map List.length) =
        (reqs.enum.map Prod.snd).filterMap
          (fun oid => (fetchBlobObj odb oid).map List.length) := by
      rw [List.enum_map_snd]
    rw [h3, List.filterMap_map]
    rfl
  rw [h1, h2, filterMap_length_sum]

theorem flat_slot_size_error (odb : GitOdb) (reqs : List Oid) (j : Nat) (oid : Oid)
    (hj : reqs[j]? = some oid) :
    ∃ r : cf_blob_arena_result,
      ((cf_batch_load_blobs_flat odb reqs).1)[j]? = some r ∧
      ((fetchBlobObj odb oid = none ∧
          r = { initArenaResult oid with error := CF_ERR_LOOKUP }) ∨
       (∃ data : Bytes, fetchBlobObj odb oid = some data ∧
          r.size = data.length ∧ r.error = CF_OK)) := by
  cases hf : fetchBlobObj odb oid with
  | none =>
    exact ⟨_, flat_slot_fail odb reqs j oid hj hf, Or.inl ⟨rfl, rfl⟩⟩
  | some data =>
    have hmem : ((j, some data) : Nat × Option Bytes) ∈ flatEntries odb reqs := by
      have := mem_flatEntries odb reqs j oid hj
      rwa [hf] at this
    rcases split_of_mem_entries _ _ hmem (flatEntries_keys_nodup odb reqs) with
      ⟨l₁, l₂, hsplit, _, _⟩
    rcases flat_slot_success odb reqs j oid data l₁ l₂ hj hsplit with
      ⟨r, hr, _, hsz, herr⟩
    exact ⟨r, hr, Or.inr ⟨data, rfl, hsz, herr⟩⟩

theorem flat_map_err_size (odb : GitOdb) (reqs : List Oid) :
    (cf_batch_load_blobs_flat odb reqs).1.map (fun r => (r.error, r.size)) =
      reqs.map (fun oid =>
        match fetchBlobObj odb oid with
        | some d => ((CF_OK : Int), d.length)
        | none => (CF_ERR_LOOKUP, 0)) := by
  apply List.ext_getElem?
  intro j
  rw [List.getElem?_map, List.getElem?_map]
  by_cases hj : j < reqs.length
  · have hoid : reqs[j]? = some reqs[j] := List.getElem?_eq_getElem hj
    rcases flat_slot_size_error odb reqs j reqs[j] hoid with ⟨r, hr, hcase⟩
    rw [hr, hoid]
    rcases hcase with ⟨hf, hval⟩ | ⟨data, hf, hsz, herr⟩
    · rw [hval]
      show some _ = some _
      simp only []
      rw [hf]
      rfl
    · show some _ = some _
      simp only []
      rw [hf, herr, hsz]
  · have h1 : reqs[j]? = none := List.getElem?_eq_none (Nat.le_of_not_lt hj)
    have h2 : ((cf_batch_load_blobs_flat odb reqs).1)[j]? = none := by
      apply List.getElem?_eq_none
      rw [flat_results_length]
      exact Nat.le_of_not_lt hj
    rw [h1, h2]
    rfl

theorem filter_sum_of_map_eq (odb : GitOdb) (l : List cf_blob_arena_result)
    (m : List Oid)
    (h : l.map (fun r => (r.error, r.size)) = m.map (fun oid =>
      match fetchBlobObj odb oid with
      | some d => ((CF_OK : Int), d.length)
      | none => (CF_ERR_LOOKUP, 0))) :
    ((l.filter (fun r => r.error = 0)).map (fun r => r.size)).sum =
      (m.map (sizeAt odb)).sum := by
  induction l generalizing m with
  | nil =>
    cases m with
    | nil => rfl
    | cons o t => exact absurd h (by simp)
  | cons r t ih =>
    cases m with
    | nil => exact absurd h (by simp)
    | cons o mt =>
      simp only [List.map_cons, List.cons.injEq] at h
      obtain ⟨hhead, htail⟩ := h
      cases hf : fetchBlobObj odb o with
      | some d =>
        rw [hf] at hhead
        have he : r.error = 0 := congrArg Prod.fst hhead
        have hs : r.size = d.length := congrArg Prod.snd hhead
        have hsz : sizeAt odb o = d.length := by unfold sizeAt; rw [hf]
        rw [List.filter_cons, if_pos (by simp [he]), List.map_cons, List.sum_cons,
          List.map_cons, List.sum_cons, ih mt htail, hs, hsz]
      | none =>
        rw [hf] at hhead
        have he : r.error = CF_ERR_LOOKUP := congrArg Prod.fst hhead
        have hne : ¬ (decide (r.error = 0) = true) := by
          rw [he]
          decide
        have hsz : sizeAt odb o = 0 := by unfold sizeAt; rw [hf]
        rw [List.filter_cons, if_neg hne, List.map_cons, List.sum_cons, ih mt htail,
          hsz]
        omega

/-! ### Theorem for claim C2 -/

/-- Claim C2: `cf_batch_load_blobs_flat` returns one result per request;
the arena size `S` is exactly the sum of the sizes of the successful
results; every successful result's `(offset, size)` range lies within
`[0, S)`; the ranges of distinct successful results do not overlap; failed
fetches contribute zero bytes (size 0, offset 0) and do not shift the
offsets of successful objects, which are assigned by prefix sum over the
successes in sorted-identifier order (the work-list order of
`flatEntries`). -/
theorem flat_loader_packs_exactly (odb : GitOdb) (reqs : List Oid) :
    (cf_batch_load_blobs_flat odb reqs).1.length = reqs.length ∧
    (cf_batch_load_blobs_flat odb reqs).2 =
      (((cf_batch_load_blobs_flat odb reqs).1.filter
          (fun r => r.error = 0)).map (fun r => r.size)).sum ∧
    (∀ i : Nat, ∀ r : cf_blob_arena_result,
      ((cf_batch_load_blobs_flat odb reqs).1)[i]? = some r → r.error = 0 →
      r.offset + r.size ≤ (cf_batch_load_blobs_flat odb reqs).2) ∧
    (∀ i : Nat, ∀ r : cf_blob_arena_result,
      ((cf_batch_load_blobs_flat odb reqs).1)[i]? = some r → r.error ≠ 0 →
      r.size = 0 ∧ r.offset = 0) ∧
    (∀ i k : Nat, ∀ ri rk : cf_blob_arena_result, i ≠ k →
      ((cf_batch_load_blobs_flat odb reqs).1)[i]? = some ri →
      ((cf_batch_load_blobs_flat odb reqs).1)[k]? = some rk →
      ri.error = 0 → rk.error = 0 →
      ri.offset + ri.size ≤ rk.offset ∨ rk.offset + rk.size ≤ ri.offset) ∧
    (∀ l₁ : List (Nat × Option Bytes), ∀ j : Nat, ∀ data : Bytes,
      ∀ l₂ : List (Nat × Option Bytes),
      flatEntries odb reqs = l₁ ++ (j, some data) :: l₂ →
      ∃ r : cf_blob_arena_result,
        ((cf_batch_load_blobs_flat odb reqs).1)[j]? = some r ∧
        r.offset = (succSizes l₁).sum ∧ r.size = data.length ∧ r.error = 0) := by
  have hsuccessOf : ∀ i : Nat, ∀ r : cf_blob_arena_result,
      ((cf_batch_load_blobs_flat odb reqs).1)[i]? = some r → r.error = 0 →
      ∃ data : Bytes, ∃ l₁ l₂ : List (Nat × Option Bytes),
        flatEntries odb reqs = l₁ ++ (i, some data) :: l₂ ∧
        r.offset = (succSizes l₁).sum ∧ r.size = data.length := by
    intro i r hr herr
    have hi : i < reqs.length := by
      have := lt_length_of_getElem?_some _ i r hr
      rwa [flat_results_length] at this
    have hoid : reqs[i]? = some reqs[i] := List.getElem?_eq_getElem hi
    rcases flat_slot_size_error odb reqs i reqs[i] hoid with ⟨r2, hr2, hcase⟩
    rw [hr] at hr2
    have hrr : r = r2 := Option.some.inj hr2
    subst hrr
    rcases hcase with ⟨hf, hval⟩ | ⟨data, hf, hsz, _⟩
    · rw [hval] at herr
      have h0 : (CF_ERR_LOOKUP : Int) = 0 := herr
      exact absurd h0 (by decide)
    · have hmem : ((i, some data) : Nat × Option Bytes) ∈ flatEntries odb reqs := by
        have := mem_flatEntries odb reqs i reqs[i] hoid
        rwa [hf] at this
      rcases split_of_mem_entries _ _ hmem (flatEntries_keys_nodup odb reqs) with
        ⟨l₁, l₂, hsplit, _, _⟩
      rcases flat_slot_success odb reqs i reqs[i] data l₁ l₂ hoid hsplit with
        ⟨r3, hr3, hoff3, hsz3, _⟩
      rw [hr] at hr3
      have : r = r3 := Option.some.inj hr3
      subst this
      exact ⟨data, l₁, l₂, hsplit, hoff3, hsz3⟩
  have hS : (cf_batch_load_blobs_flat odb reqs).2 =
      (succSizes (flatEntries odb reqs)).sum := flat_arena_size_eq_sum odb reqs
  refine ⟨flat_results_length odb reqs, ?_, ?_, ?_, ?_, ?_⟩
  · rw [hS, succSizes_flatEntries_sum,
      filter_sum_of_map_eq odb _ reqs (flat_map_err_size odb reqs)]
  · intro i r hr herr
    rcases hsuccessOf i r hr herr with ⟨data, l₁, l₂, hsplit, hoff, hsz⟩
    rw [hS, hsplit, succSizes_split, List.sum_append, List.sum_cons, hoff, hsz]
    omega
  · intro i r hr herr
    have hi : i < reqs.length := by
      have := lt_length_of_getElem?_some _ i r hr
      rwa [flat_results_length] at this
    have hoid : reqs[i]? = some reqs[i] := List.getElem?_eq_getElem hi
    rcases flat_slot_size_error odb reqs i reqs[i] hoid with ⟨r2, hr2, hcase⟩
    rw [hr] at hr2
    have hrr : r = r2 := Option.some.inj hr2
    subst hrr
    rcases hcase with ⟨hf, hval⟩ | ⟨data, hf, hsz, herr2⟩
    · rw [hval]
      exact ⟨rfl, rfl⟩
    · rw [herr2] at herr
      exact absurd rfl herr
  · intro i k ri rk hik hri hrk heri herk
    rcases hsuccessOf i ri hri heri with ⟨di, l₁, l₂, hsplit, hoffi, hszi⟩
    rcases hsuccessOf k rk hrk herk with ⟨dk, m₁, m₂, hsplitk, hoffk, hszk⟩
    have hmk : ((k, some dk) : Nat × Option Bytes) ∈ flatEntries odb reqs := by
      rw [hsplitk]
      exact List.mem_append.mpr (Or.inr (List.mem_cons_self _ _))
    rw [hsplit] at hmk
    rcases List.mem_append.mp hmk with hin1 | hin2
    · -- (k, some dk) occurs before (i, some di): rk's range ends at or before ri's start
      right
      rcases List.append_of_mem hin1 with ⟨a₁, a₂, ha⟩
      have hsplit2 : flatEntries odb reqs =
          a₁ ++ (k, some dk) :: (a₂ ++ (i, some di) :: l₂) := by
        rw [hsplit, ha]
        simp [List.append_assoc]
      rcases flat_slot_success odb reqs k
          (by
            have hk : k < reqs.length := by
              have := lt_length_of_getElem?_some _ k rk hrk
              rwa [flat_results_length] at this
            exact reqs[k])
          dk a₁ (a₂ ++ (i, some di) :: l₂)
          (by
            have hk : k < reqs.length := by
              have := lt_length_of_getElem?_some _ k rk hrk
              rwa [flat_results_length] at this
            exact List.getElem?_eq_getElem hk) hsplit2 with ⟨rk2, hrk2, hoffk2, hszk2, _⟩
      rw [hrk] at hrk2
      have : rk = rk2 := Option.some.inj hrk2
      subst this
      have hsplit3 : flatEntries odb reqs =
          (a₁ ++ (k, some dk) :: a₂) ++ (i, some di) :: l₂ := by
        rw [hsplit, ha]
      rcases flat_slot_success odb reqs i
          (by
            have hi : i < reqs.length := by
              have := lt_length_of_getElem?_some _ i ri hri
              rwa [flat_results_length] at this
            exact reqs[i])
          di (a₁ ++ (k, some dk) :: a₂) l₂
          (by
            have hi : i < reqs.length := by
              have := lt_length_of_getElem?_some _ i ri hri
              rwa [flat_results_length] at this
            exact List.getElem?_eq_getElem hi) hsplit3 with ⟨ri2, hri2, hoffi2, hszi2, _⟩
      rw [hri] at hri2
      have : ri = ri2 := Option.some.inj hri2
      subst this
      rw [hoffk2, hszk2, hoffi2, succSizes_split, List.sum_append, List.sum_cons]
      omega
    · -- (k, some dk) occurs after (i, some di)
      left
      have hnmid : ((k, some dk) : Nat × Option Bytes) ≠ (i, some di) := by
        intro hcontra
        exact hik (by
          have := congrArg Prod.fst hcontra
          simpa using this.symm)
      rcases List.mem_cons.mp hin2 with hmid | hin3
      · exact absurd hmid hnmid
      rcases List.append_of_mem hin3 with ⟨a₁, a₂, ha⟩
      have hsplit2 : flatEntries odb reqs =
          (l₁ ++ (i, some di) :: a₁) ++ (k, some dk) :: a₂ := by
        rw [hsplit, ha]
        simp [List.append_assoc]
      rcases flat_slot_success odb reqs k
          (by
            have hk : k < reqs.length := by
              have := lt_length_of_getElem?_some _ k rk hrk
              rwa [flat_results_length] at this
            exact reqs[k])
          dk (l₁ ++ (i, some di) :: a₁) a₂
          (by
            have hk : k < reqs.length := by
              have := lt_length_of_getElem?_some _ k rk hrk
              rwa [flat_results_length] at this
            exact List.getElem?_eq_getElem hk) hsplit2 with ⟨rk2, hrk2, hoffk2, hszk2, _⟩
      rw [hrk] at hrk2
      have : rk = rk2 := Option.some.inj hrk2
      subst this
      rw [hoffk2, hoffi, hszi, succSizes_split, List.sum_append, List.sum_cons]
      omega
  · intro l₁ j data l₂ hsplit
    have hj : j < reqs.length := by
      have hmem : ((j, some data) : Nat × Option Bytes) ∈ flatEntries odb reqs := by
        rw [hsplit]
        exact List.mem_append.mpr (Or.inr (List.mem_cons_self _ _))
      rcases flatEntries_mem_spec odb reqs _ hmem with ⟨oid, hoid, _⟩
      exact lt_length_of_getElem?_some reqs j oid hoid
    rcases flat_slot_success odb reqs j reqs[j] data l₁ l₂
      (List.getElem?_eq_getElem hj) hsplit with ⟨r, hr, hoff, hsz, herr⟩
    exact ⟨r, hr, hoff, hsz, herr⟩

theorem flat_loader_packs_exactly_witness :
    ({ oid := 2, offset := 3, size := 0, error := CF_OK, is_binary := 0,
       line_count := 0 } : cf_blob_arena_result).offset +
      ({ oid := 2, offset := 3, size := 0, error := CF_OK, is_binary := 0,
         line_count := 0 } : cf_blob_arena_result).size ≤
      (cf_batch_load_blobs_flat
        (fun o => if o = 1 then some ⟨GitObjectType.blob, [97, 10, 98]⟩
          else if o = 2 then some ⟨GitObjectType.blob, []⟩ else none) [2, 9, 1]).2 :=
  (flat_loader_packs_exactly
    (fun o => if o = 1 then some ⟨GitObjectType.blob, [97, 10, 98]⟩
      else if o = 2 then some ⟨GitObjectType.blob, []⟩ else none) [2, 9, 1]).2.2.1 0
    { oid := 2, offset := 3, size := 0, error := CF_OK, is_binary := 0, line_count := 0 }
    (by decide) (by decide)

/-! ### Preload deduplication: claims C6 -/

theorem skipDupsGo_spec (l : List Oid) :
    ∀ prev : Oid, l.Sorted (· ≤ ·) → (∀ x ∈ l, prev ≤ x) →
      (skipDupsGo prev l).Sorted (· < ·) ∧
      (∀ y ∈ skipDupsGo prev l, prev < y) ∧
      (∀ x ∈ l, x = prev ∨ x ∈ skipDupsGo prev l) ∧
      (∀ y ∈ skipDupsGo prev l, y ∈ l) := by
  induction l with
  | nil =>
    intro prev _ _
    exact ⟨List.sorted_nil, by simp [skipDupsGo], by simp, by simp [skipDupsGo]⟩
  | cons y t ih =>
    intro prev hs hge
    rcases List.sorted_cons.mp hs with ⟨hyt, hst⟩
    by_cases hyp : y = prev
    · have hgt : ∀ x ∈ t, prev ≤ x := by
        intro x hx
        rw [← hyp]
        exact hyt x hx
      rcases ih prev hst hgt with ⟨i1, i2, i3, i4⟩
      have hred : skipDupsGo prev (y :: t) = skipDupsGo prev t := by
        show (if y = prev then skipDupsGo prev t else y :: skipDupsGo y t) = _
        rw [if_pos hyp]
      rw [hred]
      refine ⟨i1, i2, ?_, ?_⟩
      · intro x hx
        rcases List.mem_cons.mp hx with hxy | hxt
        · left; rw [hxy, hyp]
        · exact i3 x hxt
      · intro z hz
        exact List.mem_cons_of_mem y (i4 z hz)
    · have hlt : prev < y :=
        lt_of_le_of_ne (hge y (List.mem_cons_self y t)) (fun h => hyp h.symm)
      rcases ih y hst hyt with ⟨i1, i2, i3, i4⟩
      have hred : skipDupsGo prev (y :: t) = y :: skipDupsGo y t := by
        show (if y = prev then skipDupsGo prev t else y :: skipDupsGo y t) = _
        rw [if_neg hyp]
      rw [hred]
      refine ⟨List.sorted_cons.mpr ⟨i2, i1⟩, ?_, ?_, ?_⟩
      · intro z hz
        rcases List.mem_cons.mp hz with hzy | hzr
        · rw [hzy]; exact hlt
        · exact lt_trans hlt (i2 z hzr)
      · intro x hx
        rcases List.mem_cons.mp hx with hxy | hxt
        · right; rw [hxy]; exact List.mem_cons_self y _
        · rcases i3 x hxt with hxy2 | hxr
          · right; rw [hxy2]; exact List.mem_cons_self y _
          · right; exact List.mem_cons_of_mem y hxr
      · intro z hz
        rcases List.mem_cons.mp hz with hzy | hzr
        · rw [hzy]; exact List.mem_cons_self y t
        · exact List.mem_cons_of_mem y (i4 z hzr)

theorem skipAdjDups_spec (l : List Oid) (hs : l.Sorted (· ≤ ·)) :
    (skipAdjDups l).Sorted (· < ·) ∧
    (∀ x ∈ l, x ∈ skipAdjDups l) ∧
    (∀ y ∈ skipAdjDups l, y ∈ l) := by
  cases l with
  | nil => exact ⟨List.sorted_nil, by simp, by simp [skipAdjDups]⟩
  | cons x t =>
    rcases List.sorted_cons.mp hs with ⟨hxt, hst⟩
    rcases skipDupsGo_spec t x hst hxt with ⟨i1, i2, i3, i4⟩
    have hred : skipAdjDups (x :: t) = x :: skipDupsGo x t := rfl
    rw [hred]
    refine ⟨List.sorted_cons.mpr ⟨i2, i1⟩, ?_, ?_⟩
    · intro z hz
      rcases List.mem_cons.mp hz with hzx | hzt
      · rw [hzx]; exact List.mem_cons_self x _
      · rcases i3 z hzt with hzx2 | hzr
        · rw [hzx2]; exact List.mem_cons_self x _
        · exact List.mem_cons_of_mem x hzr
    · intro z hz
      rcases List.mem_cons.mp hz with hzx | hzr
      · rw [hzx]; exact List.mem_cons_self x t
      · exact List.mem_cons_of_mem x (i4 z hzr)

/-! ### Theorem for claim C6 -/

/-- Claim C6: the preload phase of `cf_batch_diff_blobs` performs exactly
one store fetch per distinct referenced identifier, in sorted order: its
fetch log is strictly sorted (hence duplicate-free), covers exactly the
identifiers referenced by the batch, and its length is the number of
distinct referenced identifiers; a batch of the two pairs (A, B) and
(B, A) fetches exactly [A, B] — 2 fetches, not 4. -/
theorem preload_fetches_once_per_unique :
    (∀ reqs : List cf_diff_request,
      (preloadFetchLog reqs).Sorted (· < ·) ∧
      (∀ oid : Oid, oid ∈ preloadFetchLog reqs ↔ oid ∈ collectOids reqs) ∧
      (preloadFetchLog reqs).length = (collectOids reqs).toFinset.card ∧
      (∀ odb : GitOdb,
        preload_blobs_for_diff odb reqs = (preloadFetchLog reqs).map (preloadEntry odb))) ∧
    preloadFetchLog
      [{ old_oid := 1, new_oid := 2, has_old := true, has_new := true },
       { old_oid := 2, new_oid := 1, has_old := true, has_new := true }] = [1, 2] := by
  constructor
  · intro reqs
    have hsorted : (List.insertionSort (fun a b => a ≤ b) (collectOids reqs)).Sorted
        (fun a b => a ≤ b) := List.sorted_insertionSort _ _
    have hperm : List.Perm (List.insertionSort (fun a b => a ≤ b) (collectOids reqs))
        (collectOids reqs) := List.perm_insertionSort _ _
    rcases skipAdjDups_spec _ hsorted with ⟨i1, i2, i3⟩
    have hmem : ∀ oid : Oid, oid ∈ preloadFetchLog reqs ↔ oid ∈ collectOids reqs := by
      intro oid
      constructor
      · intro h
        exact hperm.mem_iff.mp (i3 oid h)
      · intro h
        exact i2 oid (hperm.mem_iff.mpr h)
    refine ⟨i1, hmem, ?_, fun odb => rfl⟩
    have hnd : (preloadFetchLog reqs).Nodup := i1.nodup
    have hfs : (preloadFetchLog reqs).toFinset = (collectOids reqs).toFinset := by
      apply Finset.ext
      intro a
      rw [List.mem_toFinset, List.mem_toFinset]
      exact hmem a
    rw [← hfs, List.toFinset_card_of_nodup hnd]
  · decide

/-! ### The run encoder: structural lemmas -/

theorem flush_op_fields (ctx : diff_ctx_t) :
    (flush_op ctx).op_capacity = ctx.op_capacity ∧
    (flush_op ctx).old_line_pos = ctx.old_line_pos ∧
    (flush_op ctx).new_line_pos = ctx.new_line_pos ∧
    (flush_op ctx).current_type = ctx.current_type ∧
    (flush_op ctx).current_count = 0 ∨ flush_op ctx = ctx := by
  by_cases h : ctx.current_count > 0
  · left
    simp [flush_op, h]
  · right
    simp [flush_op, h]

theorem flush_op_capacity (ctx : diff_ctx_t) :
    (flush_op ctx).op_capacity = ctx.op_capacity := by
  by_cases h : ctx.current_count > 0 <;> simp [flush_op, h]

theorem flush_op_pos (ctx : diff_ctx_t) :
    (flush_op ctx).old_line_pos = ctx.old_line_pos ∧
    (flush_op ctx).new_line_pos = ctx.new_line_pos := by
  by_cases h : ctx.current_count > 0 <;> simp [flush_op, h]

theorem flush_op_ops_le (ctx : diff_ctx_t) :
    ctx.ops.length ≤ (flush_op ctx).ops.length := by
  by_cases h : ctx.current_count > 0
  · simp only [flush_op, if_pos h, pushCap]
    by_cases hl : ctx.ops.length < ctx.op_capacity
    · rw [if_pos hl]
      simp
    · rw [if_neg hl]
  · simp [flush_op, h]

theorem add_op_capacity (ctx : diff_ctx_t) (ty : Int) (cnt : Nat) :
    (add_op ctx ty cnt).op_capacity = ctx.op_capacity := by
  by_cases h : ty = ctx.current_type
  · simp [add_op, h]
  · simp [add_op, h, flush_op_capacity]

theorem add_op_pos (ctx : diff_ctx_t) (ty : Int) (cnt : Nat) :
    (add_op ctx ty cnt).old_line_pos = ctx.old_line_pos ∧
    (add_op ctx ty cnt).new_line_pos = ctx.new_line_pos := by
  by_cases h : ty = ctx.current_type
  · simp [add_op, h]
  · simp [add_op, h, flush_op_pos]

theorem add_op_ops_le (ctx : diff_ctx_t) (ty : Int) (cnt : Nat) :
    ctx.ops.length ≤ (add_op ctx ty cnt).ops.length := by
  by_cases h : ty = ctx.current_type
  · simp [add_op, h]
  · simp only [add_op, if_neg h]
    exact flush_op_ops_le ctx

theorem processEvent_capacity (ctx : diff_ctx_t) (e : DiffEvent) :
    (processEvent ctx e).op_capacity = ctx.op_capacity := by
  cases e with
  | hunk s =>
    simp only [processEvent]
    by_cases h : s - 1 > ctx.old_line_pos
    · rw [if_pos h]
      exact add_op_capacity ..
    · rw [if_neg h]
  | ctxLine => exact add_op_capacity ..
  | addLine => exact add_op_capacity ..
  | delLine => exact add_op_capacity ..
  | otherLine => rfl

theorem processEvent_ops_le (ctx : diff_ctx_t) (e : DiffEvent) :
    ctx.ops.length ≤ (processEvent ctx e).ops.length := by
  cases e with
  | hunk s =>
    simp only [processEvent]
    by_cases h : s - 1 > ctx.old_line_pos
    · rw [if_pos h]
      exact add_op_ops_le ..
    · rw [if_neg h]
  | ctxLine => exact add_op_ops_le ..
  | addLine => exact add_op_ops_le ..
  | delLine => exact add_op_ops_le ..
  | otherLine => exact Nat.le_refl _

theorem foldl_processEvent_capacity (events : List DiffEvent) :
    ∀ ctx : diff_ctx_t,
      (events.foldl processEvent ctx).op_capacity = ctx.op_capacity := by
  induction events with
  | nil => intro ctx; rfl
  | cons e t ih =>
    intro ctx
    rw [List.foldl_cons, ih, processEvent_capacity]

theorem foldl_processEvent_ops_le (events : List DiffEvent) :
    ∀ ctx : diff_ctx_t,
      ctx.ops.length ≤ (events.foldl processEvent ctx).ops.length := by
  induction events with
  | nil => intro ctx; exact Nat.le_refl _
  | cons e t ih =>
    intro ctx
    rw [List.foldl_cons]
    exact Nat.le_trans (processEvent_ops_le ctx e) (ih (processEvent ctx e))

/-! ### The run encoder: the sums invariant -/

theorem sumED_append (a b : List cf_diff_op) : sumED (a ++ b) = sumED a + sumED b := by
  unfold sumED
  rw [List.map_append, List.sum_append]

theorem sumEI_append (a b : List cf_diff_op) : sumEI (a ++ b) = sumEI a + sumEI b := by
  unfold sumEI
  rw [List.map_append, List.sum_append]

theorem pendED_of_count_zero (ctx : diff_ctx_t) (h : ctx.current_count = 0) :
    pendED ctx = 0 := by
  unfold pendED
  by_cases hc : ctx.current_type = CF_DIFF_EQUAL ∨ ctx.current_type = CF_DIFF_DELETE
  · rw [if_pos hc, h]
  · rw [if_neg hc]

theorem pendEI_of_count_zero (ctx : diff_ctx_t) (h : ctx.current_count = 0) :
    pendEI ctx = 0 := by
  unfold pendEI
  by_cases hc : ctx.current_type = CF_DIFF_EQUAL ∨ ctx.current_type = CF_DIFF_INSERT
  · rw [if_pos hc, h]
  · rw [if_neg hc]

theorem flush_op_sums (ctx : diff_ctx_t) (hcap : ctx.ops.length < ctx.op_capacity) :
    sumED (flush_op ctx).ops = sumED ctx.ops + pendED ctx ∧
    sumEI (flush_op ctx).ops = sumEI ctx.ops + pendEI ctx ∧
    pendED (flush_op ctx) = 0 ∧ pendEI (flush_op ctx) = 0 := by
  by_cases h : ctx.current_count > 0
  · have hops : (flush_op ctx).ops =
        ctx.ops ++ [⟨ctx.current_type, ctx.current_count⟩] := by
      simp only [flush_op, if_pos h, pushCap, if_pos hcap]
    have hcnt : (flush_op ctx).current_count = 0 := by
      simp [flush_op, h]
    have hty : (flush_op ctx).current_type = ctx.current_type := by
      simp [flush_op, h]
    refine ⟨?_, ?_, pendED_of_count_zero _ hcnt, pendEI_of_count_zero _ hcnt⟩
    · rw [hops, sumED_append]
      have : sumED [⟨ctx.current_type, ctx.current_count⟩] = pendED ctx := by
        unfold sumED edWeight pendED
        simp
      rw [this]
    · rw [hops, sumEI_append]
      have : sumEI [⟨ctx.current_type, ctx.current_count⟩] = pendEI ctx := by
        unfold sumEI eiWeight pendEI
        simp
      rw [this]
  · have hid : flush_op ctx = ctx := by
      simp [flush_op, h]
    have hcnt : ctx.current_count = 0 := Nat.eq_zero_of_not_pos h
    rw [hid, pendED_of_count_zero _ hcnt, pendEI_of_count_zero _ hcnt]
    exact ⟨rfl, rfl, rfl, rfl⟩

theorem add_op_sums (ctx : diff_ctx_t) (ty : Int) (cnt : Nat)
    (hcap : ctx.ops.length < ctx.op_capacity) :
    sumED (add_op ctx ty cnt).ops + pendED (add_op ctx ty cnt) =
      sumED ctx.ops + pendED ctx +
        (if ty = CF_DIFF_EQUAL ∨ ty = CF_DIFF_DELETE then cnt else 0) ∧
    sumEI (add_op ctx ty cnt).ops + pendEI (add_op ctx ty cnt) =
      sumEI ctx.ops + pendEI ctx +
        (if ty = CF_DIFF_EQUAL ∨ ty = CF_DIFF_INSERT then cnt else 0) := by
  by_cases h : ty = ctx.current_type
  · have hops : (add_op ctx ty cnt).ops = ctx.ops := by simp [add_op, h]
    have hty : (add_op ctx ty cnt).current_type = ctx.current_type := by
      simp [add_op, h]
    have hcnt : (add_op ctx ty cnt).current_count = ctx.current_count + cnt := by
      simp [add_op, h]
    constructor
    · rw [hops]
      unfold pendED
      rw [hty, hcnt, h]
      by_cases hc : ctx.current_type = CF_DIFF_EQUAL ∨ ctx.current_type = CF_DIFF_DELETE
      · simp only [if_pos hc]
        omega
      · simp only [if_neg hc]
    · rw [hops]
      unfold pendEI
      rw [hty, hcnt, h]
      by_cases hc : ctx.current_type = CF_DIFF_EQUAL ∨ ctx.current_type = CF_DIFF_INSERT
      · simp only [if_pos hc]
        omega
      · simp only [if_neg hc]
  · have hops : (add_op ctx ty cnt).ops = (flush_op ctx).ops := by
      simp [add_op, h]
    have hty : (add_op ctx ty cnt).current_type = ty := by simp [add_op, h]
    have hcnt : (add_op ctx ty cnt).current_count = cnt := by simp [add_op, h]
    rcases flush_op_sums ctx hcap with ⟨hsED, hsEI, _, _⟩
    constructor
    · rw [hops, hsED]
      unfold pendED
      rw [hty, hcnt]
    · rw [hops, hsEI]
      unfold pendEI
      rw [hty, hcnt]

theorem pendED_set_pos (c : diff_ctx_t) (a b : Nat) :
    pendED { c with old_line_pos := a, new_line_pos := b } = pendED c := rfl

theorem pendEI_set_pos (c : diff_ctx_t) (a b : Nat) :
    pendEI { c with old_line_pos := a, new_line_pos := b } = pendEI c := rfl

theorem processEvent_sums (ctx : diff_ctx_t) (e : DiffEvent)
    (hcap : ctx.ops.length < ctx.op_capacity)
    (hED : sumED ctx.ops + pendED ctx = ctx.old_line_pos)
    (hEI : sumEI ctx.ops + pendEI ctx = ctx.new_line_pos) :
    sumED (processEvent ctx e).ops + pendED (processEvent ctx e) =
      (processEvent ctx e).old_line_pos ∧
    sumEI (processEvent ctx e).ops + pendEI (processEvent ctx e) =
      (processEvent ctx e).new_line_pos := by
  have hEQED : (CF_DIFF_EQUAL = CF_DIFF_EQUAL ∨ CF_DIFF_EQUAL = CF_DIFF_DELETE) :=
    Or.inl rfl
  have hEQEI : (CF_DIFF_EQUAL = CF_DIFF_EQUAL ∨ CF_DIFF_EQUAL = CF_DIFF_INSERT) :=
    Or.inl rfl
  have hINED : ¬ (CF_DIFF_INSERT = CF_DIFF_EQUAL ∨ CF_DIFF_INSERT = CF_DIFF_DELETE) := by
    decide
  have hINEI : (CF_DIFF_INSERT = CF_DIFF_EQUAL ∨ CF_DIFF_INSERT = CF_DIFF_INSERT) :=
    Or.inr rfl
  have hDEED : (CF_DIFF_DELETE = CF_DIFF_EQUAL ∨ CF_DIFF_DELETE = CF_DIFF_DELETE) :=
    Or.inr rfl
  have hDEEI : ¬ (CF_DIFF_DELETE = CF_DIFF_EQUAL ∨ CF_DIFF_DELETE = CF_DIFF_INSERT) := by
    decide
  cases e with
  | hunk s =>
    simp only [processEvent]
    by_cases hgap : s - 1 > ctx.old_line_pos
    · rw [if_pos hgap]
      simp only []
      rcases add_op_sums ctx CF_DIFF_EQUAL (s - 1 - ctx.old_line_pos) hcap with ⟨aED, aEI⟩
      rw [if_pos hEQED] at aED
      rw [if_pos hEQEI] at aEI
      rcases add_op_pos ctx CF_DIFF_EQUAL (s - 1 - ctx.old_line_pos) with ⟨_, hnp⟩
      constructor
      · rw [pendED_set_pos, aED]
        omega
      · rw [pendEI_set_pos, aEI]
        omega
    · rw [if_neg hgap]
      exact ⟨hED, hEI⟩
  | ctxLine =>
    simp only [processEvent]
    rcases add_op_sums ctx CF_DIFF_EQUAL 1 hcap with ⟨aED, aEI⟩
    rw [if_pos hEQED] at aED
    rw [if_pos hEQEI] at aEI
    rcases add_op_pos ctx CF_DIFF_EQUAL 1 with ⟨hop, hnp⟩
    constructor
    · rw [pendED_set_pos, aED]
      omega
    · rw [pendEI_set_pos, aEI]
      omega
  | addLine =>
    simp only [processEvent]
    rcases add_op_sums ctx CF_DIFF_INSERT 1 hcap with ⟨aED, aEI⟩
    rw [if_neg hINED] at aED
    rw [if_pos hINEI] at aEI
    rcases add_op_pos ctx CF_DIFF_INSERT 1 with ⟨hop, hnp⟩
    constructor
    · rw [pendED_set_pos, aED]
      omega
    · rw [pendEI_set_pos, aEI]
      omega
  | delLine =>
    simp only [processEvent]
    rcases add_op_sums ctx CF_DIFF_DELETE 1 hcap with ⟨aED, aEI⟩
    rw [if_pos hDEED] at aED
    rw [if_neg hDEEI] at aEI
    rcases add_op_pos ctx CF_DIFF_DELETE 1 with ⟨hop, hnp⟩
    constructor
    · rw [pendED_set_pos, aED]
      omega
    · rw [pendEI_set_pos, aEI]
      omega
  | otherLine =>
    exact ⟨hED, hEI⟩

theorem foldl_processEvent_sums (events : List DiffEvent) :
    ∀ ctx : diff_ctx_t,
      (events.foldl processEvent ctx).ops.length < ctx.op_capacity →
      sumED ctx.ops + pendED ctx = ctx.old_line_pos →
      sumEI ctx.ops + pendEI ctx = ctx.new_line_pos →
      sumED (events.foldl processEvent ctx).ops + pendED (events.foldl processEvent ctx) =
        (events.foldl processEvent ctx).old_line_pos ∧
      sumEI (events.foldl processEvent ctx).ops + pendEI (events.foldl processEvent ctx) =
        (events.foldl processEvent ctx).new_line_pos := by
  induction events with
  | nil =>
    intro ctx _ hED hEI
    exact ⟨hED, hEI⟩
  | cons e t ih =>
    intro ctx hcap hED hEI
    rw [List.foldl_cons] at hcap ⊢
    have hcap1 : ctx.ops.length < ctx.op_capacity :=
      Nat.lt_of_le_of_lt
        (Nat.le_trans (processEvent_ops_le ctx e)
          (foldl_processEvent_ops_le t (processEvent ctx e)))
        hcap
    rcases processEvent_sums ctx e hcap1 hED hEI with ⟨h1, h2⟩
    exact ih (processEvent ctx e)
      (by rw [processEvent_capacity]; exact hcap) h1 h2

theorem runEncoder_sums (old_lines new_lines : Nat) (events : List DiffEvent)
    (hwf : eventsWellFormed events old_lines new_lines)
    (hlen : (runEncoder old_lines events).length < CF_MAX_DIFF_OPS) :
    sumED (runEncoder old_lines events) = old_lines ∧
    sumEI (runEncoder old_lines events) = new_lines := by
  rcases hwf with ⟨hop, hnp, hgap⟩
  have hcapeq : (events.foldl processEvent initDiffCtx).op_capacity = CF_MAX_DIFF_OPS :=
    foldl_processEvent_capacity events initDiffCtx
  -- the three stages and their op-list lengths
  have hmono2 : (events.foldl processEvent initDiffCtx).ops.length ≤
      (flush_op (events.foldl processEvent initDiffCtx)).ops.length :=
    flush_op_ops_le _
  have hmono3 : (flush_op (events.foldl processEvent initDiffCtx)).ops.length ≤
      (runEncoder old_lines events).length := by
    simp only [runEncoder]
    by_cases hrem : old_lines > (flush_op (events.foldl processEvent initDiffCtx)).old_line_pos
    · rw [if_pos hrem]
      exact Nat.le_trans (add_op_ops_le _ _ _) (flush_op_ops_le _)
    · rw [if_neg hrem]
  have hcap1 : (events.foldl processEvent initDiffCtx).ops.length < CF_MAX_DIFF_OPS :=
    Nat.lt_of_le_of_lt (Nat.le_trans hmono2 hmono3) hlen
  have hcap2 : (flush_op (events.foldl processEvent initDiffCtx)).ops.length <
      CF_MAX_DIFF_OPS := Nat.lt_of_le_of_lt hmono3 hlen
  -- invariant after the fold
  rcases foldl_processEvent_sums events initDiffCtx hcap1 rfl rfl with ⟨iED, iEI⟩
  -- after the explicit flush
  rcases flush_op_sums (events.foldl processEvent initDiffCtx)
      (by rw [hcapeq]; exact hcap1) with ⟨fED, fEI, fpED, fpEI⟩
  rcases flush_op_pos (events.foldl processEvent initDiffCtx) with ⟨fop, fnp⟩
  have hED2 : sumED (flush_op (events.foldl processEvent initDiffCtx)).ops =
      (events.foldl processEvent initDiffCtx).old_line_pos := by
    rw [fED, iED]
  have hEI2 : sumEI (flush_op (events.foldl processEvent initDiffCtx)).ops =
      (events.foldl processEvent initDiffCtx).new_line_pos := by
    rw [fEI, iEI]
  have hcap2cap : (flush_op (events.foldl processEvent initDiffCtx)).ops.length <
      (flush_op (events.foldl processEvent initDiffCtx)).op_capacity := by
    rw [flush_op_capacity, hcapeq]
    exact hcap2
  -- the trailing implicit Equal run
  simp only [runEncoder]
  by_cases hrem : old_lines > (flush_op (events.foldl processEvent initDiffCtx)).old_line_pos
  · rw [if_pos hrem]
    rcases add_op_sums (flush_op (events.foldl processEvent initDiffCtx)) CF_DIFF_EQUAL
        (old_lines - (flush_op (events.foldl processEvent initDiffCtx)).old_line_pos)
        hcap2cap with ⟨aED, aEI⟩
    rw [if_pos (Or.inl rfl)] at aED
    rw [if_pos (Or.inl rfl)] at aEI
    have hcap3 : (add_op (flush_op (events.foldl processEvent initDiffCtx)) CF_DIFF_EQUAL
        (old_lines - (flush_op (events.foldl processEvent initDiffCtx)).old_line_pos)).ops.length <
        (add_op (flush_op (events.foldl processEvent initDiffCtx)) CF_DIFF_EQUAL
          (old_lines -
            (flush_op (events.foldl processEvent initDiffCtx)).old_line_pos)).op_capacity := by
      rw [add_op_capacity, flush_op_capacity, hcapeq]
      apply Nat.lt_of_le_of_lt _ hlen
      simp only [runEncoder]
      rw [if_pos hrem]
      exact flush_op_ops_le _
    rcases flush_op_sums _ hcap3 with ⟨gED, gEI, _, _⟩
    constructor
    · omega
    · omega
  · rw [if_neg hrem]
    constructor
    · omega
    · omega

/-! ### Theorems for claim C1 -/

theorem sideCheck_error_ne_zero (b : Option cf_preloaded_blob) (e : Int)
    (h : sideCheck b = Except.error e) : e ≠ 0 := by
  cases b with
  | none => exact absurd h (by simp [sideCheck])
  | some blob =>
    simp only [sideCheck] at h
    by_cases hv : ¬ blob.valid
    · rw [if_pos hv] at h
      have : e = CF_ERR_LOOKUP := (Except.error.inj h).symm
      rw [this]
      decide
    · rw [if_neg hv] at h
      by_cases hb : blob.is_binary ≠ 0
      · rw [if_pos hb] at h
        have : e = CF_ERR_BINARY := (Except.error.inj h).symm
        rw [this]
        decide
      · rw [if_neg hb] at h
        exact absurd h (by simp)

theorem compute_preloaded_sums (oracle : DiffOracle)
    (oldb newb : Option cf_preloaded_blob)
    (herr : (compute_diff_with_preloaded oracle oldb newb).error = 0)
    (hwf : eventsWellFormed
      (oracle (oldb.map (fun b => b.data)) (newb.map (fun b => b.data)))
      (compute_diff_with_preloaded oracle oldb newb).old_lines
      (compute_diff_with_preloaded oracle oldb newb).new_lines)
    (hlen : ((compute_diff_with_preloaded oracle oldb newb).ops.getD []).length <
      CF_MAX_DIFF_OPS) :
    sumED ((compute_diff_with_preloaded oracle oldb newb).ops.getD []) =
      (compute_diff_with_preloaded oracle oldb newb).old_lines ∧
    sumEI ((compute_diff_with_preloaded oracle oldb newb).ops.getD []) =
      (compute_diff_with_preloaded oracle oldb newb).new_lines := by
  cases hso : sideCheck oldb with
  | error e =>
    have hcomp : compute_diff_with_preloaded oracle oldb newb =
        { old_lines := 0, new_lines := 0, ops := some [], error := e } := by
      simp only [compute_diff_with_preloaded, hso]
    rw [hcomp] at herr
    exact absurd herr (sideCheck_error_ne_zero oldb e hso)
  | ok ol =>
    cases hsn : sideCheck newb with
    | error e =>
      have hcomp : compute_diff_with_preloaded oracle oldb newb =
          { old_lines := ol, new_lines := 0, ops := some [], error := e } := by
        simp only [compute_diff_with_preloaded, hso, hsn]
      rw [hcomp] at herr
      exact absurd herr (sideCheck_error_ne_zero newb e hsn)
    | ok nl =>
      have hcomp : compute_diff_with_preloaded oracle oldb newb =
          { old_lines := ol, new_lines := nl,
            ops := some (runEncoder ol
              (oracle (oldb.map (fun b => b.data)) (newb.map (fun b => b.data)))),
            error := CF_OK } := by
        simp only [compute_diff_with_preloaded, hso, hsn]
      rw [hcomp] at hwf hlen ⊢
      exact runEncoder_sums ol nl _ hwf hlen

/-- Claim C1 (amended): for every `cf_diff_result` computed by the diff
engine — by the preloaded path or by the per-pair fallback — with
`error == 0`, *provided the recorded op count is strictly below
`CF_MAX_DIFF_OPS` (so no run was silently truncated) and the line-diff
primitive's stream is well formed for the two line counts*, the sum of
`run_length` over Equal and Delete ops equals `old_line_count` and the sum
over Equal and Insert ops equals `new_line_count`, including the implicit
Equal runs for gaps before hunks and after the final hunk. -/
theorem diff_run_length_invariant :
    (∀ (oracle : DiffOracle) (oldb newb : Option cf_preloaded_blob),
      (compute_diff_with_preloaded oracle oldb newb).error = 0 →
      eventsWellFormed
        (oracle (oldb.map (fun b => b.data)) (newb.map (fun b => b.data)))
        (compute_diff_with_preloaded oracle oldb newb).old_lines
        (compute_diff_with_preloaded oracle oldb newb).new_lines →
      ((compute_diff_with_preloaded oracle oldb newb).ops.getD []).length <
        CF_MAX_DIFF_OPS →
      sumED ((compute_diff_with_preloaded oracle oldb newb).ops.getD []) =
        (compute_diff_with_preloaded oracle oldb newb).old_lines ∧
      sumEI ((compute_diff_with_preloaded oracle oldb newb).ops.getD []) =
        (compute_diff_with_preloaded oracle oldb newb).new_lines) ∧
    (∀ (oracle : DiffOracle) (odb : GitOdb) (req : cf_diff_request),
      (compute_single_diff oracle odb req).error = 0 →
      eventsWellFormed
        (oracle ((preloadedSideOf odb req.has_old req.old_oid).map (fun b => b.data))
          ((preloadedSideOf odb req.has_new req.new_oid).map (fun b => b.data)))
        (compute_single_diff oracle odb req).old_lines
        (compute_single_diff oracle odb req).new_lines →
      ((compute_single_diff oracle odb req).ops.getD []).length < CF_MAX_DIFF_OPS →
      sumED ((compute_single_diff oracle odb req).ops.getD []) =
        (compute_single_diff oracle odb req).old_lines ∧
      sumEI ((compute_single_diff oracle odb req).ops.getD []) =
        (compute_single_diff oracle odb req).new_lines) := by
  refine ⟨compute_preloaded_sums, ?_⟩
  intro oracle odb req herr hwf hlen
  rw [single_preload_agree oracle odb req] at herr hlen ⊢
  rw [single_preload_agree oracle odb req] at hwf
  exact compute_preloaded_sums oracle _ _ herr hwf hlen

theorem diff_run_length_invariant_witness :
    sumED ((compute_diff_with_preloaded
        (fun _ _ => [DiffEvent.hunk 1, DiffEvent.ctxLine, DiffEvent.delLine,
          DiffEvent.addLine, DiffEvent.ctxLine])
        (some { oid := 1, data := [97, 10, 98, 10, 99, 10], size := 6, is_binary := 0,
                line_count := 3, valid := true })
        (some { oid := 2, data := [97, 10, 88, 10, 99, 10], size := 6, is_binary := 0,
                line_count := 3, valid := true })).ops.getD []) = 3 ∧
    sumEI ((compute_diff_with_preloaded
        (fun _ _ => [DiffEvent.hunk 1, DiffEvent.ctxLine, DiffEvent.delLine,
          DiffEvent.addLine, DiffEvent.ctxLine])
        (some { oid := 1, data := [97, 10, 98, 10, 99, 10], size := 6, is_binary := 0,
                line_count := 3, valid := true })
        (some { oid := 2, data := [97, 10, 88, 10, 99, 10], size := 6, is_binary := 0,
                line_count := 3, valid := true })).ops.getD []) = 3 :=
  diff_run_length_invariant.1
    (fun _ _ => [DiffEvent.hunk 1, DiffEvent.ctxLine, DiffEvent.delLine,
      DiffEvent.addLine, DiffEvent.ctxLine])
    (some { oid := 1, data := [97, 10, 98, 10, 99, 10], size := 6, is_binary := 0,
            line_count := 3, valid := true })
    (some { oid := 2, data := [97, 10, 88, 10, 99, 10], size := 6, is_binary := 0,
            line_count := 3, valid := true })
    (by decide) (by decide) (by decide)

/-! ### Claim C1: the over-capacity counterexample -/

theorem pushCap_take (l : List cf_diff_op) (cap : Nat) (x : cf_diff_op) :
    pushCap (l.take cap) cap x = (l ++ [x]).take cap := by
  by_cases h : l.length < cap
  · have ht : l.take cap = l := List.take_of_length_le (Nat.le_of_lt h)
    have hlen2 : (l ++ [x]).length = l.length + 1 := by simp
    have ht2 : (l ++ [x]).take cap = l ++ [x] :=
      List.take_of_length_le (by omega)
    rw [ht, ht2]
    unfold pushCap
    rw [if_pos h]
  · have hc : cap ≤ l.length := Nat.le_of_not_lt h
    have ht : (l.take cap).length = cap := by
      rw [List.length_take]
      omega
    unfold pushCap
    rw [if_neg (by rw [ht]; omega), List.take_append_of_le_length hc]

theorem ctrRun_mod0 (i : Nat) (h : i % 3 = 0) : ctrRun i = ⟨CF_DIFF_DELETE, 1⟩ := by
  unfold ctrRun
  rw [h]

theorem ctrRun_mod1 (i : Nat) (h : i % 3 = 1) : ctrRun i = ⟨CF_DIFF_INSERT, 1⟩ := by
  unfold ctrRun
  rw [h]

theorem ctrRun_mod2 (i : Nat) (h : i % 3 = 2) : ctrRun i = ⟨CF_DIFF_EQUAL, 1⟩ := by
  unfold ctrRun
  rw [h]

theorem ctrRuns_succ (k : Nat) : ctrRuns (k + 1) = ctrRuns k ++ [ctrRun k] := by
  unfold ctrRuns
  rw [List.range_succ, List.map_append]
  rfl

theorem ctrRuns_length (k : Nat) : (ctrRuns k).length = k := by
  unfold ctrRuns
  rw [List.length_map, List.length_range]

theorem take_ctrRuns (m n : Nat) : (ctrRuns n).take m = ctrRuns (min m n) := by
  unfold ctrRuns
  rw [← List.map_take, List.take_range]

theorem ctrState_ops (k : Nat) :
    (ctrState k).ops = (ctrRuns (3 * k - 1)).take CF_MAX_DIFF_OPS := rfl

theorem ctrState_cap (k : Nat) : (ctrState k).op_capacity = CF_MAX_DIFF_OPS := rfl

theorem ctrState_ty (k : Nat) : (ctrState k).current_type = CF_DIFF_EQUAL := rfl

theorem ctrState_cnt (k : Nat) : (ctrState k).current_count = 1 := rfl

theorem ctrState_old (k : Nat) : (ctrState k).old_line_pos = 2 * k := rfl

theorem ctrState_new (k : Nat) : (ctrState k).new_line_pos = 2 * k := rfl

theorem runEncoder_eval (old_lines : Nat) (events : List DiffEvent) (c : diff_ctx_t)
    (h : events.foldl processEvent initDiffCtx = c) :
    runEncoder old_lines events =
      (if old_lines > (flush_op c).old_line_pos then
        flush_op (add_op (flush_op c) CF_DIFF_EQUAL (old_lines - (flush_op c).old_line_pos))
      else flush_op c).ops := by
  unfold runEncoder
  rw [h]

theorem processEvent_del_ne (ctx : diff_ctx_t)
    (hne : ¬ CF_DIFF_DELETE = ctx.current_type) (hcnt : ctx.current_count > 0) :
    processEvent ctx DiffEvent.delLine =
      { ops := pushCap ctx.ops ctx.op_capacity ⟨ctx.current_type, ctx.current_count⟩,
        op_capacity := ctx.op_capacity, current_type := CF_DIFF_DELETE,
        current_count := 1, old_line_pos := ctx.old_line_pos + 1,
        new_line_pos := ctx.new_line_pos } := by
  simp only [processEvent, add_op, if_neg hne, flush_op, if_pos hcnt]

theorem processEvent_add_ne (ctx : diff_ctx_t)
    (hne : ¬ CF_DIFF_INSERT = ctx.current_type) (hcnt : ctx.current_count > 0) :
    processEvent ctx DiffEvent.addLine =
      { ops := pushCap ctx.ops ctx.op_capacity ⟨ctx.current_type, ctx.current_count⟩,
        op_capacity := ctx.op_capacity, current_type := CF_DIFF_INSERT,
        current_count := 1, old_line_pos := ctx.old_line_pos,
        new_line_pos := ctx.new_line_pos + 1 } := by
  simp only [processEvent, add_op, if_neg hne, flush_op, if_pos hcnt]

theorem processEvent_ctx_ne (ctx : diff_ctx_t)
    (hne : ¬ CF_DIFF_EQUAL = ctx.current_type) (hcnt : ctx.current_count > 0) :
    processEvent ctx DiffEvent.ctxLine =
      { ops := pushCap ctx.ops ctx.op_capacity ⟨ctx.current_type, ctx.current_count⟩,
        op_capacity := ctx.op_capacity, current_type := CF_DIFF_EQUAL,
        current_count := 1, old_line_pos := ctx.old_line_pos + 1,
        new_line_pos := ctx.new_line_pos + 1 } := by
  simp only [processEvent, add_op, if_neg hne, flush_op, if_pos hcnt]

theorem ctr_step (k : Nat) (hk : 1 ≤ k) :
    ctrTriple.foldl processEvent (ctrState k) = ctrState (k + 1) := by
  have h1 : (3 * k - 1) % 3 = 2 := by omega
  have h2 : (3 * k) % 3 = 0 := by omega
  have h3 : (3 * k + 1) % 3 = 1 := by omega
  have e1 : processEvent (ctrState k) DiffEvent.delLine =
      { ops := (ctrRuns (3 * k)).take CF_MAX_DIFF_OPS, op_capacity := CF_MAX_DIFF_OPS,
        current_type := CF_DIFF_DELETE, current_count := 1,
        old_line_pos := 2 * k + 1, new_line_pos := 2 * k } := by
    rw [processEvent_del_ne (ctrState k)
      (show ¬ CF_DIFF_DELETE = CF_DIFF_EQUAL by decide) (show (1 : Nat) > 0 by decide)]
    have hops : pushCap ((ctrState k).ops) ((ctrState k).op_capacity)
        ⟨(ctrState k).current_type, (ctrState k).current_count⟩ =
        (ctrRuns (3 * k)).take CF_MAX_DIFF_OPS := by
      show pushCap ((ctrRuns (3 * k - 1)).take CF_MAX_DIFF_OPS) CF_MAX_DIFF_OPS
        ⟨CF_DIFF_EQUAL, 1⟩ = _
      rw [pushCap_take, ← ctrRun_mod2 (3 * k - 1) h1, ← ctrRuns_succ]
      have he : 3 * k - 1 + 1 = 3 * k := by omega
      rw [he]
    rw [hops]
    rfl
  have e2 : processEvent
      ({ ops := (ctrRuns (3 * k)).take CF_MAX_DIFF_OPS, op_capacity := CF_MAX_DIFF_OPS,
         current_type := CF_DIFF_DELETE, current_count := 1,
         old_line_pos := 2 * k + 1, new_line_pos := 2 * k } : diff_ctx_t)
      DiffEvent.addLine =
      { ops := (ctrRuns (3 * k + 1)).take CF_MAX_DIFF_OPS,
        op_capacity := CF_MAX_DIFF_OPS, current_type := CF_DIFF_INSERT,
        current_count := 1, old_line_pos := 2 * k + 1,
        new_line_pos := 2 * k + 1 } := by
    rw [processEvent_add_ne _
      (show ¬ CF_DIFF_INSERT = CF_DIFF_DELETE by decide) (show (1 : Nat) > 0 by decide)]
    have hops : pushCap ((ctrRuns (3 * k)).take CF_MAX_DIFF_OPS) CF_MAX_DIFF_OPS
        (⟨CF_DIFF_DELETE, 1⟩ : cf_diff_op) = (ctrRuns (3 * k + 1)).take CF_MAX_DIFF_OPS := by
      rw [pushCap_take, ← ctrRun_mod0 (3 * k) h2, ← ctrRuns_succ]
    rw [hops]
  have e3 : processEvent
      ({ ops := (ctrRuns (3 * k + 1)).take CF_MAX_DIFF_OPS,
         op_capacity := CF_MAX_DIFF_OPS, current_type := CF_DIFF_INSERT,
         current_count := 1, old_line_pos := 2 * k + 1,
         new_line_pos := 2 * k + 1 } : diff_ctx_t)
      DiffEvent.ctxLine = ctrState (k + 1) := by
    rw [processEvent_ctx_ne _
      (show ¬ CF_DIFF_EQUAL = CF_DIFF_INSERT by decide) (show (1 : Nat) > 0 by decide)]
    have hops : pushCap ((ctrRuns (3 * k + 1)).take CF_MAX_DIFF_OPS) CF_MAX_DIFF_OPS
        (⟨CF_DIFF_INSERT, 1⟩ : cf_diff_op) =
        (ctrRuns (3 * (k + 1) - 1)).take CF_MAX_DIFF_OPS := by
      rw [pushCap_take, ← ctrRun_mod1 (3 * k + 1) h3, ← ctrRuns_succ]
      have he : 3 * k + 1 + 1 = 3 * (k + 1) - 1 := by omega
      rw [he]
    rw [hops]
    unfold ctrState
    have hp : 2 * k + 1 + 1 = 2 * (k + 1) := by omega
    rw [hp]
  show processEvent (processEvent (processEvent (ctrState k) DiffEvent.delLine)
      DiffEvent.addLine) DiffEvent.ctxLine = ctrState (k + 1)
  rw [e1, e2, e3]

theorem ctr_blocks (m : Nat) : ∀ k : Nat, 1 ≤ k →
    ((List.replicate m ctrTriple).flatten).foldl processEvent (ctrState k) =
      ctrState (k + m) := by
  induction m with
  | zero => intro k _; rfl
  | succ n ih =>
    intro k hk
    rw [List.replicate_succ, List.flatten_cons, List.foldl_append, ctr_step k hk,
      ih (k + 1) (by omega)]
    have he : k + 1 + n = k + (n + 1) := by omega
    rw [he]

theorem ctr_hunk : processEvent initDiffCtx (DiffEvent.hunk 1) = initDiffCtx := by
  decide

theorem ctr_base : ctrTriple.foldl processEvent initDiffCtx = ctrState 1 := by
  decide

theorem ctr_fold : ctrEvents.foldl processEvent initDiffCtx = ctrState 33334 := by
  have hev : ctrEvents =
      DiffEvent.hunk 1 :: (ctrTriple ++ (List.replicate 33333 ctrTriple).flatten) := by
    unfold ctrEvents
    rw [show (33334 : Nat) = 33333 + 1 by omega, List.replicate_succ, List.flatten_cons]
  rw [hev, List.foldl_cons, ctr_hunk, List.foldl_append, ctr_base,
    ctr_blocks 33333 1 (by omega)]

theorem ctr_encoder_ops : runEncoder 66668 ctrEvents = ctrRuns 100000 := by
  rw [runEncoder_eval 66668 ctrEvents (ctrState 33334) ctr_fold]
  have hops : (ctrState 33334).ops = ctrRuns 100000 := by
    rw [ctrState_ops, take_ctrRuns]
    have he : min CF_MAX_DIFF_OPS (3 * 33334 - 1) = 100000 := by
      rw [show CF_MAX_DIFF_OPS = 100000 from rfl]
      omega
    rw [he]
  have hcnt : (ctrState 33334).current_count > 0 := by
    rw [ctrState_cnt]
    decide
  have hpush : pushCap ((ctrState 33334).ops) ((ctrState 33334).op_capacity)
      ⟨(ctrState 33334).current_type, (ctrState 33334).current_count⟩ = ctrRuns 100000 := by
    rw [hops, ctrState_cap]
    unfold pushCap
    rw [ctrRuns_length, if_neg (show ¬ (100000 < CF_MAX_DIFF_OPS) by decide)]
  have hflush : flush_op (ctrState 33334) =
      { ctrState 33334 with ops := ctrRuns 100000, current_count := 0 } := by
    simp only [flush_op, if_pos hcnt]
    rw [hpush]
  rw [hflush]
  have hrem : ¬ (66668 > ({ ctrState 33334 with ops := ctrRuns 100000, current_count := 0 }
      : diff_ctx_t).old_line_pos) := by
    show ¬ (66668 > (ctrState 33334).old_line_pos)
    rw [ctrState_old]
    omega
  rw [if_neg hrem]

theorem sumED_ctrRuns_add3 (k : Nat) :
    sumED (ctrRuns (k + 3)) = sumED (ctrRuns k) + 2 := by
  have e1 : ctrRuns (k + 3) =
      ((ctrRuns k ++ [ctrRun k]) ++ [ctrRun (k + 1)]) ++ [ctrRun (k + 2)] := by
    rw [show k + 3 = k + 2 + 1 by omega, ctrRuns_succ,
      show k + 2 = k + 1 + 1 by omega, ctrRuns_succ, ctrRuns_succ]
  rw [e1, sumED_append, sumED_append, sumED_append]
  have h0 : k % 3 = 0 ∨ k % 3 = 1 ∨ k % 3 = 2 := by omega
  rcases h0 with h | h | h
  · rw [ctrRun_mod0 k h, ctrRun_mod1 (k + 1) (by omega), ctrRun_mod2 (k + 2) (by omega)]
    have w1 : sumED [(⟨CF_DIFF_DELETE, 1⟩ : cf_diff_op)] = 1 := by decide
    have w2 : sumED [(⟨CF_DIFF_INSERT, 1⟩ : cf_diff_op)] = 0 := by decide
    have w3 : sumED [(⟨CF_DIFF_EQUAL, 1⟩ : cf_diff_op)] = 1 := by decide
    rw [w1, w2, w3]
  · rw [ctrRun_mod1 k h, ctrRun_mod2 (k + 1) (by omega), ctrRun_mod0 (k + 2) (by omega)]
    have w1 : sumED [(⟨CF_DIFF_INSERT, 1⟩ : cf_diff_op)] = 0 := by decide
    have w2 : sumED [(⟨CF_DIFF_EQUAL, 1⟩ : cf_diff_op)] = 1 := by decide
    have w3 : sumED [(⟨CF_DIFF_DELETE, 1⟩ : cf_diff_op)] = 1 := by decide
    rw [w1, w2, w3]
  · rw [ctrRun_mod2 k h, ctrRun_mod0 (k + 1) (by omega), ctrRun_mod1 (k + 2) (by omega)]
    have w1 : sumED [(⟨CF_DIFF_EQUAL, 1⟩ : cf_diff_op)] = 1 := by decide
    have w2 : sumED [(⟨CF_DIFF_DELETE, 1⟩ : cf_diff_op)] = 1 := by decide
    have w3 : sumED [(⟨CF_DIFF_INSERT, 1⟩ : cf_diff_op)] = 0 := by decide
    rw [w1, w2, w3]

theorem sumED_ctrRuns_3j1 (j : Nat) : sumED (ctrRuns (3 * j + 1)) = 2 * j + 1 := by
  induction j with
  | zero => decide
  | succ n ih =>
    have he : 3 * (n + 1) + 1 = 3 * n + 1 + 3 := by omega
    rw [he, sumED_ctrRuns_add3, ih]
    omega

theorem sumED_ctrRuns_100000 : sumED (ctrRuns 100000) = 66667 := by
  have h := sumED_ctrRuns_3j1 33333
  rw [show 3 * 33333 + 1 = 100000 by omega] at h
  rw [h]

theorem containsZero_replicate_of_ne (n b : Nat) (hb : b ≠ 0) :
    containsZero (List.replicate n b) = false := by
  induction n with
  | zero => rfl
  | succ m ih => simp only [List.replicate_succ, containsZero, if_neg hb, ih]

theorem countNewlines_replicate_ten (n : Nat) :
    countNewlines (List.replicate n 10) = n := by
  induction n with
  | zero => rfl
  | succ m ih =>
    rw [List.replicate_succ]
    show (if (10 : Nat) = 10 then 1 else 0) + countNewlines (List.replicate m 10) = m + 1
    rw [if_pos rfl, ih]
    omega

theorem cf_is_binary_replicate_ten : cf_is_binary (List.replicate 66668 10) = 0 := by
  unfold cf_is_binary
  rw [List.take_replicate]
  have hmin : min CF_BINARY_CHECK_LEN 66668 = 8000 := by
    rw [show CF_BINARY_CHECK_LEN = 8000 from rfl]
    omega
  rw [hmin, containsZero_replicate_of_ne 8000 10 (by decide)]
  have hlen : ¬ (List.replicate 8000 (10 : Nat)).length = 0 := by
    rw [List.length_replicate]
    decide
  rw [if_neg hlen]
  simp

theorem getLast?_replicate_ten : (List.replicate 66668 (10 : Nat)).getLast? = some 10 := by
  rw [List.getLast?_eq_getElem?, List.length_replicate, List.getElem?_replicate]
  rw [if_pos (by decide)]

theorem cf_count_lines_replicate_ten :
    cf_count_lines (List.replicate 66668 10) = 66668 := by
  unfold cf_count_lines
  have hlen : ¬ (List.replicate 66668 (10 : Nat)).length = 0 := by
    rw [List.length_replicate]
    decide
  rw [if_neg hlen, countNewlines_replicate_ten, getLast?_replicate_ten]
  simp

theorem ctrBlob_eval : preloadEntry ctrOdb 1 =
    { oid := 1, data := List.replicate 66668 10, size := 66668, is_binary := 0,
      line_count := 66668, valid := true } := by
  have hfetch : fetchBlobObj ctrOdb 1 = some (List.replicate 66668 10) := rfl
  simp only [preloadEntry, hfetch]
  rw [List.length_replicate]
  rw [if_pos (show (66668 : Nat) > 0 by decide), cf_is_binary_replicate_ten]
  rw [if_pos (show (0 : Nat) = 0 ∧ (66668 : Nat) > 0 from ⟨rfl, by decide⟩)]
  rw [cf_count_lines_replicate_ten]

/-- Claim C1 (counterexample): a diff of two 66668-line buffers in which
every odd line is replaced produces a well-formed stream of 100002
coalesced runs; the encoder silently drops the two past
`CF_MAX_DIFF_OPS`, so the engine returns `error == 0` with
`old_line_count = 66668` while its Equal+Delete run lengths sum to 66667.
The claimed invariant fails on this `cf_diff_result`. -/
theorem diff_run_length_invariant_counterexample :
    (compute_diff_with_preloaded (fun _ _ => ctrEvents)
        (some (preloadEntry ctrOdb 1)) (some (preloadEntry ctrOdb 1))).error = 0 ∧
    eventsWellFormed ctrEvents
      (compute_diff_with_preloaded (fun _ _ => ctrEvents)
        (some (preloadEntry ctrOdb 1)) (some (preloadEntry ctrOdb 1))).old_lines
      (compute_diff_with_preloaded (fun _ _ => ctrEvents)
        (some (preloadEntry ctrOdb 1)) (some (preloadEntry ctrOdb 1))).new_lines ∧
    sumED ((compute_diff_with_preloaded (fun _ _ => ctrEvents)
        (some (preloadEntry ctrOdb 1)) (some (preloadEntry ctrOdb 1))).ops.getD []) ≠
      (compute_diff_with_preloaded (fun _ _ => ctrEvents)
        (some (preloadEntry ctrOdb 1)) (some (preloadEntry ctrOdb 1))).old_lines := by
  have hside : sideCheck (some
      ({ oid := 1, data := List.replicate 66668 10, size := 66668, is_binary := 0,
         line_count := 66668, valid := true } : cf_preloaded_blob)) =
      Except.ok 66668 := rfl
  have hcomp : compute_diff_with_preloaded (fun _ _ => ctrEvents)
      (some (preloadEntry ctrOdb 1)) (some (preloadEntry ctrOdb 1)) =
      { old_lines := 66668, new_lines := 66668,
        ops := some (runEncoder 66668 ctrEvents), error := CF_OK } := by
    rw [ctrBlob_eval]
    simp only [compute_diff_with_preloaded, hside]
  rw [hcomp]
  refine ⟨rfl, ?_, ?_⟩
  · show eventsWellFormed ctrEvents 66668 66668
    unfold eventsWellFormed
    rw [ctr_fold, ctrState_old, ctrState_new]
    omega
  · have hgd : ({ old_lines := 66668, new_lines := 66668,
                  ops := some (runEncoder 66668 ctrEvents), error := CF_OK } :
          cf_diff_result).ops.getD [] = runEncoder 66668 ctrEvents := by
      rw [show ({ old_lines := 66668, new_lines := 66668,
                  ops := some (runEncoder 66668 ctrEvents), error := CF_OK } :
          cf_diff_result).ops = some (runEncoder 66668 ctrEvents) from rfl,
        Option.getD_some]
    rw [hgd, ctr_encoder_ops, sumED_ctrRuns_100000]
    show (66667 : Nat) ≠ 66668
    decide

theorem batch_load_results_in_request_order_witness :
    (cf_batch_load_blobs (fun o => if o = 3 then some ⟨GitObjectType.blob, [97, 10]⟩ else none)
        [7, 3, 9, 3, 8, 1])[3]? =
      some (load_single_blob_odb
        (fun o => if o = 3 then some ⟨GitObjectType.blob, [97, 10]⟩ else none) 3) ∧
    (load_single_blob_odb
        (fun o => if o = 3 then some ⟨GitObjectType.blob, [97, 10]⟩ else none) 3).oid = 3 :=
  (batch_load_results_in_request_order
    (fun o => if o = 3 then some ⟨GitObjectType.blob, [97, 10]⟩ else none)
    [7, 3, 9, 3, 8, 1]).2 3 3 (by decide)

end Codefang
